import Mathlib

/-!
# Verification of the `platform-tools` multi-server lifecycle manager

Shallow embedding of `grpc/server/server.go` (package `server`) from the
`rainbow-me/platform-tools` repository, together with proofs settling the
frozen claims about its specification.

Modelling conventions:
* Go `error` values are modelled by the inductive type `GoServer.Err`.
  `errors.Join` is modelled by `GoServer.joinGo` (nil ↔ `none`, and a
  non-empty slice of non-nil errors is wrapped in a `joined` node, exactly
  as Go's `errors.Join` wraps them in a `joinError`).
* Go strings are Lean `String`s; Go `int` / `time.Duration` are `Int`.
* Callbacks (HTTP handlers, gRPC setup functions, shutdown-hook bodies) are
  external code; a callback value is modelled by its observable behaviour
  (presence, returned error, context state at return), never by its body.
* Context state is modelled explicitly: the status a `context.Context`
  reports at a given instant is `active`, `doneDeadline`
  (`ctx.Err() = context.DeadlineExceeded`) or `doneCanceled`
  (`ctx.Err() = context.Canceled`).  A Go `select` with a `default` branch
  takes the ready channel case when one is ready, else the default.
-/

namespace GoServer

open scoped List

/-- Model of Go `error` values produced by the `server` package.
`mk` models `errors.New` / `fmt.Errorf` without `%w`; `wrap` models
`fmt.Errorf("...: %w", err)`; `shutdownTimeout` models the package-level
sentinel `ErrShutdownTimeout` (declared in the package and used at
`server.go:517` and `server.go:597`; its declaration file is not among the
provided sources, but it is an opaque sentinel created once, so identity is
all that matters); `joined` models the `joinError` produced by
`errors.Join` on a non-empty list of non-nil errors. -/
inductive Err where
  | mk (msg : String)
  | wrap (msg : String) (inner : Err)
  | shutdownTimeout
  | joined (es : List Err)
deriving Inhabited

/-- Model of Go `errors.Join(errs...)` applied to a list of *non-nil*
errors: returns `nil` (`none`) for the empty list, otherwise a single
`joined` error holding the list.  (Go's `errors.Join` first drops nil
arguments; every call site modelled below only ever passes non-nil
errors, which is made explicit by using `Option.toList` at the one call
site that may pass nil.) -/
def joinGo (es : List Err) : Option Err :=
  if es.isEmpty then none else some (.joined es)

@[simp] theorem joinGo_nil : joinGo [] = none := rfl

@[simp] theorem joinGo_cons (e : Err) (es : List Err) :
    joinGo (e :: es) = some (.joined (e :: es)) := rfl

theorem joinGo_eq_none_iff (es : List Err) : joinGo es = none ↔ es = [] := by
  cases es <;> simp [joinGo]

/-! ## Port normalization (`server.go:161-170`) and the registration
helpers `WithHTTPServer` (`server.go:70-80`), `WithGRPCServer`
(`server.go:96-111`), `WithGateway` (`server.go:115-132`). -/

/-- Model of `strings.HasPrefix(port, ":")`: true iff the first character
of the string is `':'`.  (`strings.HasPrefix(s, pre)` holds iff `pre` is a
prefix of `s`; for the one-character prefix `":"` this is exactly "the
first character is `':'`".) -/
def colonPrefixed (s : String) : Bool :=
  match s.data with
  | [] => false
  | c :: _ => c == ':'

/-- Embedding of `normalizePort` (`server.go:162-170`):
empty string maps to empty string, a string already starting with `':'`
is returned unchanged, anything else gets `':'` prepended. -/
def normalizePort (port : String) : String :=
  if port = "" then ""
  else if colonPrefixed port then port
  else ":" ++ port

/-- Model of an HTTP registration as accumulated by the `Option`
functions.  The `http.Handler` is external code: only its presence is
observable to the `server` package's validation, so it is modelled by
`handlerPresent`.  Timeouts are `time.Duration`s (`Int`, nanoseconds). -/
structure HTTPConfigM where
  name : String
  address : String
  handlerPresent : Bool
  readTimeout : Int := 0
  writeTimeout : Int := 0
  idleTimeout : Int := 0
  headerTimeout : Int := 0
deriving DecidableEq, Repr, Inhabited

/-- Model of a gRPC registration.  The `*grpc.Server` instance and the
`SetupFunc` are external values; validation only observes their
presence. -/
structure GRPCConfigM where
  name : String
  address : String
  serverPresent : Bool
  setupPresent : Bool
deriving DecidableEq, Repr, Inhabited

/-- Embedding of the config literal built by `WithHTTPServer`
(`server.go:71-75`): the bind address is the normalized port. -/
def withHTTPServerConfig (name port : String) (handlerPresent : Bool) : HTTPConfigM :=
  { name := name, address := normalizePort port, handlerPresent := handlerPresent }

/-- Embedding of the config literal built by `WithGRPCServer`
(`server.go:103-109`): the bind address is the normalized port. -/
def withGRPCServerConfig (name port : String) (serverPresent setupPresent : Bool) :
    GRPCConfigM :=
  { name := name, address := normalizePort port, serverPresent := serverPresent,
    setupPresent := setupPresent }

/-- Embedding of the config literal built by `WithGateway`
(`server.go:123-127`) when gateway construction succeeds: an HTTP config
whose handler is the freshly created gin engine (always present) and whose
bind address is the normalized port. -/
def withGatewayConfig (name port : String) : HTTPConfigM :=
  { name := name, address := normalizePort port, handlerPresent := true }

theorem normalizePort_empty : normalizePort "" = "" := rfl

theorem normalizePort_of_colon (p : String) (h : colonPrefixed p = true) :
    normalizePort p = p := by
  unfold normalizePort
  by_cases he : p = ""
  · simp [he]
  · simp [he, h]

theorem normalizePort_of_not_colon (p : String) (hne : p ≠ "")
    (h : colonPrefixed p = false) : normalizePort p = ":" ++ p := by
  simp [normalizePort, hne, h]

theorem colonPrefixed_colon_append (p : String) :
    colonPrefixed (":" ++ p) = true := by
  obtain ⟨d⟩ := p
  rfl

theorem colon_append_ne_empty (p : String) : ":" ++ p ≠ "" := by
  obtain ⟨d⟩ := p
  intro h
  have : (":" ++ String.mk d).data = "".data := by rw [h]
  simp [String.data_append] at this

/-- The function `normalizePort` is idempotent. -/
theorem normalizePort_idem (p : String) :
    normalizePort (normalizePort p) = normalizePort p := by
  by_cases he : p = ""
  · simp [he, normalizePort_empty]
  · by_cases hc : colonPrefixed p
    · rw [normalizePort_of_colon p hc, normalizePort_of_colon p hc]
    · rw [normalizePort_of_not_colon p he (by simpa using hc)]
      exact normalizePort_of_colon _ (colonPrefixed_colon_append p)

/-! ## Construction-time validation (`NewServer`, `server.go:224-258`)

`NewServer` walks the accumulated HTTP configs and then the gRPC configs,
threading two string sets (`nameSet`, `addrSet`).  The two loops are
identical up to the error messages and the per-config validity check, so
they are embedded as one parametric loop instantiated twice.  The Go loop
inserts the name into `nameSet` before checking the address and handler;
since an error aborts `NewServer` entirely, performing all three checks
before the two insertions (as done here) yields the same result on every
input. -/

/-- The per-kind parameters of a `NewServer` validation loop. -/
structure LoopKind (γ : Type) where
  nameOf : γ → String
  addrOf : γ → String
  okOf : γ → Bool
  dupNameMsg : String → String
  invalidMsg : String → String

/-- One validation loop of `NewServer`: checks name uniqueness
(`server.go:229-232` / `245-248`), bind-address uniqueness for non-empty
addresses (`server.go:233-238` / `249-254`), and per-config validity
(`server.go:239-241` / `255-257`), threading the accumulated name and
address sets (modelled as lists). -/
def validateLoop (K : LoopKind γ) :
    List γ → List String → List String → Except String (List String × List String)
  | [], names, addrs => .ok (names, addrs)
  | c :: rest, names, addrs =>
    if K.nameOf c ∈ names then .error (K.dupNameMsg (K.nameOf c))
    else if K.addrOf c ≠ "" ∧ K.addrOf c ∈ addrs then
      .error ("duplicate bind address: " ++ K.addrOf c)
    else if K.okOf c = false then .error (K.invalidMsg (K.nameOf c))
    else validateLoop K rest (K.nameOf c :: names)
        (if K.addrOf c = "" then addrs else K.addrOf c :: addrs)

/-- The HTTP instantiation of the validation loop (`server.go:228-242`). -/
def httpKind : LoopKind HTTPConfigM where
  nameOf := HTTPConfigM.name
  addrOf := HTTPConfigM.address
  okOf := HTTPConfigM.handlerPresent
  dupNameMsg := fun n => "duplicate HTTP server name: " ++ n
  invalidMsg := fun n => "HTTP server " ++ n ++ " has no handler"

/-- The gRPC instantiation of the validation loop (`server.go:244-258`);
a gRPC config is valid when it has a server instance or a setup callback
(`config.SetupFunc == nil && config.GRPCServer == nil` is the error
condition). -/
def grpcKind : LoopKind GRPCConfigM where
  nameOf := GRPCConfigM.name
  addrOf := GRPCConfigM.address
  okOf := fun c => c.serverPresent || c.setupPresent
  dupNameMsg := fun n => "duplicate gRPC server name: " ++ n
  invalidMsg := fun n => "gRPC server " ++ n ++ " has no GRPCServer or SetupFunc"

theorem httpKind_nameOf : httpKind.nameOf = HTTPConfigM.name := rfl

theorem httpKind_addrOf : httpKind.addrOf = HTTPConfigM.address := rfl

theorem grpcKind_nameOf : grpcKind.nameOf = GRPCConfigM.name := rfl

theorem grpcKind_addrOf : grpcKind.addrOf = GRPCConfigM.address := rfl

/-- The full validation block of `NewServer` (`server.go:224-258`): the
HTTP loop feeds its accumulated name/address sets into the gRPC loop. -/
def validateConfigs (hs : List HTTPConfigM) (gs : List GRPCConfigM) :
    Except String Unit :=
  match validateLoop httpKind hs [] [] with
  | .error m => .error m
  | .ok (ns, as) =>
    match validateLoop grpcKind gs ns as with
    | .error m => .error m
    | .ok _ => .ok ()

/-- Model of `NewServer` restricted to its validation result: on success the
manager (represented by its validated configuration) is returned, on
failure the error is returned and no manager is produced. -/
def newServerM (hs : List HTTPConfigM) (gs : List GRPCConfigM) :
    Except String (List HTTPConfigM × List GRPCConfigM) :=
  (validateConfigs hs gs).map (fun _ => (hs, gs))

/-- All registration names, HTTP first, in registration order. -/
def combinedNames (hs : List HTTPConfigM) (gs : List GRPCConfigM) : List String :=
  hs.map HTTPConfigM.name ++ gs.map GRPCConfigM.name

/-- All non-empty registration bind addresses, HTTP first, in
registration order. -/
def combinedAddrs (hs : List HTTPConfigM) (gs : List GRPCConfigM) : List String :=
  (hs.map HTTPConfigM.address ++ gs.map GRPCConfigM.address).filter (· ≠ "")

theorem validateLoop_ok_eq (K : LoopKind γ) (cs : List γ) :
    ∀ names addrs p, validateLoop K cs names addrs = .ok p →
      p = ((cs.map K.nameOf).reverse ++ names,
           ((cs.map K.addrOf).filter (· ≠ "")).reverse ++ addrs) := by
  induction cs with
  | nil => intro names addrs p h; simpa [validateLoop] using h.symm
  | cons c rest ih =>
    intro names addrs p h
    rw [validateLoop] at h
    split at h
    · exact absurd h (by simp)
    · split at h
      · exact absurd h (by simp)
      · split at h
        · exact absurd h (by simp)
        · rename_i hval
          have := ih _ _ _ h
          by_cases ha : K.addrOf c = ""
          · simpa [ha, List.filter_cons, List.append_assoc] using this
          · simpa [ha, List.filter_cons, List.append_assoc] using this

theorem nodup_append_cons_iff (A : List String) (x : String) (B : List String) :
    (A ++ x :: B).Nodup ↔ x ∉ A ++ B ∧ (A ++ B).Nodup := by
  rw [List.nodup_middle, List.nodup_cons]

theorem validateLoop_isOk_iff (K : LoopKind γ) (cs : List γ) :
    ∀ names addrs, (∀ c ∈ cs, K.okOf c = true) → names.Nodup → addrs.Nodup →
      ((∃ p, validateLoop K cs names addrs = .ok p) ↔
        (names ++ cs.map K.nameOf).Nodup ∧
        (addrs ++ (cs.map K.addrOf).filter (· ≠ "")).Nodup) := by
  induction cs with
  | nil =>
    intro names addrs _ hn ha
    simp [validateLoop, hn, ha]
  | cons c rest ih =>
    intro names addrs hok hn ha
    have hokc : K.okOf c = true := hok c (by simp)
    have hokr : ∀ x ∈ rest, K.okOf x = true := fun x hx => hok x (by simp [hx])
    have hnam : (names ++ (c :: rest).map K.nameOf).Nodup ↔
        K.nameOf c ∉ names ++ rest.map K.nameOf ∧ (names ++ rest.map K.nameOf).Nodup := by
      rw [List.map_cons]; exact nodup_append_cons_iff ..
    rw [validateLoop]
    by_cases hnm : K.nameOf c ∈ names
    · rw [if_pos hnm, hnam]
      constructor
      · rintro ⟨p, hp⟩; simp at hp
      · rintro ⟨⟨hna, _⟩, _⟩
        exact absurd (List.mem_append_left _ hnm) hna
    · rw [if_neg hnm]
      by_cases had : K.addrOf c ≠ "" ∧ K.addrOf c ∈ addrs
      · rw [if_pos had]
        have haddr : ((c :: rest).map K.addrOf).filter (· ≠ "") =
            K.addrOf c :: (rest.map K.addrOf).filter (· ≠ "") := by
          rw [List.map_cons, List.filter_cons, if_pos (by simpa using had.1)]
        constructor
        · rintro ⟨p, hp⟩; simp at hp
        · rintro ⟨_, h2⟩
          rw [haddr, nodup_append_cons_iff] at h2
          exact absurd (List.mem_append_left _ had.2) h2.1
      · rw [if_neg had, if_neg (by simp [hokc])]
        by_cases ha' : K.addrOf c = ""
        · rw [if_pos ha',
            ih (K.nameOf c :: names) addrs hokr (List.nodup_cons.mpr ⟨hnm, hn⟩) ha]
          have h2eq : ((c :: rest).map K.addrOf).filter (· ≠ "") =
              (rest.map K.addrOf).filter (· ≠ "") := by
            rw [List.map_cons, List.filter_cons, if_neg (by simpa using ha')]
          rw [h2eq, hnam, List.cons_append, List.nodup_cons]
        · rw [if_neg ha']
          have hadm : K.addrOf c ∉ addrs := fun hm => had ⟨ha', hm⟩
          rw [ih (K.nameOf c :: names) (K.addrOf c :: addrs) hokr
            (List.nodup_cons.mpr ⟨hnm, hn⟩) (List.nodup_cons.mpr ⟨hadm, ha⟩)]
          have haddr : ((c :: rest).map K.addrOf).filter (· ≠ "") =
              K.addrOf c :: (rest.map K.addrOf).filter (· ≠ "") := by
            rw [List.map_cons, List.filter_cons, if_pos (by simpa using ha')]
          rw [haddr, nodup_append_cons_iff, hnam,
            List.cons_append, List.nodup_cons, List.cons_append, List.nodup_cons]

theorem validateLoop_error_names (K : LoopKind γ) (cs : List γ) :
    ∀ names addrs m, (∀ c ∈ cs, K.okOf c = true) →
      validateLoop K cs names addrs = .error m →
      ∃ x, (m = K.dupNameMsg x ∧ 2 ≤ (names ++ cs.map K.nameOf).count x) ∨
        (m = "duplicate bind address: " ++ x ∧ x ≠ "" ∧
          2 ≤ (addrs ++ (cs.map K.addrOf).filter (· ≠ "")).count x) := by
  induction cs with
  | nil => intro names addrs m _ h; simp [validateLoop] at h
  | cons c rest ih =>
    intro names addrs m hok h
    have hokc : K.okOf c = true := hok c (by simp)
    have hokr : ∀ x ∈ rest, K.okOf x = true := fun x hx => hok x (by simp [hx])
    rw [validateLoop] at h
    split at h
    · rename_i hnm
      refine ⟨K.nameOf c, .inl ⟨by simpa using h.symm, ?_⟩⟩
      have h1 : 1 ≤ names.count (K.nameOf c) := List.count_pos_iff.mpr hnm
      have h2 : 1 ≤ ((c :: rest).map K.nameOf).count (K.nameOf c) := by
        refine List.count_pos_iff.mpr ?_
        simp
      calc 2 ≤ names.count (K.nameOf c) + ((c :: rest).map K.nameOf).count (K.nameOf c) :=
            Nat.add_le_add h1 h2
        _ = _ := (List.count_append _ _ _).symm
    · split at h
      · rename_i hnm had
        refine ⟨K.addrOf c, .inr ⟨by simpa using h.symm, had.1, ?_⟩⟩
        have h1 : 1 ≤ addrs.count (K.addrOf c) := List.count_pos_iff.mpr had.2
        have h2 : 1 ≤ (((c :: rest).map K.addrOf).filter (· ≠ "")).count (K.addrOf c) := by
          refine List.count_pos_iff.mpr ?_
          simp only [List.map_cons, List.filter_cons]
          rw [if_pos (by simpa using had.1)]
          simp
        calc 2 ≤ addrs.count (K.addrOf c) +
              (((c :: rest).map K.addrOf).filter (· ≠ "")).count (K.addrOf c) :=
            Nat.add_le_add h1 h2
          _ = _ := (List.count_append _ _ _).symm
      · split at h
        · rename_i hval
          rw [hokc] at hval; exact absurd hval (by simp)
        · rename_i hnm had hval
          obtain ⟨x, hx⟩ := ih _ _ _ hokr h
          refine ⟨x, ?_⟩
          rcases hx with ⟨hm, hcnt⟩ | ⟨hm, hne, hcnt⟩
          · refine .inl ⟨hm, ?_⟩
            rw [List.map_cons]
            simp only [List.count_append, List.count_cons, List.cons_append] at hcnt ⊢
            omega
          · refine .inr ⟨hm, hne, ?_⟩
            by_cases ha' : K.addrOf c = ""
            · rw [if_pos ha'] at hcnt
              rw [show ((c :: rest).map K.addrOf).filter (· ≠ "") =
                (rest.map K.addrOf).filter (· ≠ "") by
                  rw [List.map_cons, List.filter_cons, if_neg (by simpa using ha')]]
              exact hcnt
            · rw [if_neg ha'] at hcnt
              rw [show ((c :: rest).map K.addrOf).filter (· ≠ "") =
                K.addrOf c :: (rest.map K.addrOf).filter (· ≠ "") by
                  rw [List.map_cons, List.filter_cons, if_pos (by simpa using ha')]]
              simp only [List.count_append, List.count_cons, List.cons_append] at hcnt ⊢
              omega

theorem validateConfigs_ok_iff (hs : List HTTPConfigM) (gs : List GRPCConfigM)
    (hh : ∀ c ∈ hs, c.handlerPresent = true)
    (hg : ∀ c ∈ gs, (c.serverPresent || c.setupPresent) = true) :
    validateConfigs hs gs = .ok () ↔
      (combinedNames hs gs).Nodup ∧ (combinedAddrs hs gs).Nodup := by
  have hh' : ∀ c ∈ hs, httpKind.okOf c = true := hh
  have hg' : ∀ c ∈ gs, grpcKind.okOf c = true := hg
  have hstage1 := validateLoop_isOk_iff httpKind hs [] [] hh' List.nodup_nil List.nodup_nil
  have hcA : combinedAddrs hs gs =
      (hs.map HTTPConfigM.address).filter (· ≠ "") ++
      (gs.map GRPCConfigM.address).filter (· ≠ "") := by
    unfold combinedAddrs
    rw [List.filter_append]
  cases h1 : validateLoop httpKind hs [] [] with
  | error m =>
    have hvc : validateConfigs hs gs = .error m := by
      unfold validateConfigs; rw [h1]
    have hno : ¬ ∃ p, validateLoop httpKind hs [] [] = .ok p := by
      rintro ⟨p, hp⟩; rw [h1] at hp; simp at hp
    rw [hstage1] at hno
    simp only [List.nil_append] at hno
    rw [hvc]
    constructor
    · intro h; simp at h
    · rintro ⟨hN, hA⟩
      exfalso
      refine hno ⟨?_, ?_⟩
      · exact hN.sublist (by unfold combinedNames; exact List.sublist_append_left _ _)
      · refine hA.sublist ?_
        rw [hcA]
        exact List.sublist_append_left _ _
  | ok p =>
    obtain ⟨ns, as⟩ := p
    have hvc : validateConfigs hs gs =
        (match validateLoop grpcKind gs ns as with
          | .error m => .error m
          | .ok _ => .ok ()) := by
      unfold validateConfigs; rw [h1]
    have hval := validateLoop_ok_eq httpKind hs [] [] _ h1
    have hns : ns = (hs.map HTTPConfigM.name).reverse := by
      simpa using congrArg Prod.fst hval
    have has : as = ((hs.map HTTPConfigM.address).filter (· ≠ "")).reverse := by
      simpa using congrArg Prod.snd hval
    have hok1 : (([] : List String) ++ hs.map HTTPConfigM.name).Nodup ∧
        (([] : List String) ++ (hs.map HTTPConfigM.address).filter (· ≠ "")).Nodup :=
      hstage1.mp ⟨_, h1⟩
    simp only [List.nil_append] at hok1
    have hstage2 := validateLoop_isOk_iff grpcKind gs ns as hg'
      (by rw [hns]; exact (List.nodup_reverse).mpr hok1.1)
      (by rw [has]; exact (List.nodup_reverse).mpr hok1.2)
    have hpermN : (ns ++ gs.map GRPCConfigM.name).Nodup ↔ (combinedNames hs gs).Nodup := by
      rw [hns]
      exact ((hs.map HTTPConfigM.name).reverse_perm.append_right _).nodup_iff
    have hpermA : (as ++ (gs.map GRPCConfigM.address).filter (· ≠ "")).Nodup ↔
        (combinedAddrs hs gs).Nodup := by
      rw [has, hcA]
      exact (((hs.map HTTPConfigM.address).filter (· ≠ "")).reverse_perm.append_right _).nodup_iff
    cases h2 : validateLoop grpcKind gs ns as with
    | error m =>
      rw [h2] at hvc
      rw [hvc]
      constructor
      · intro h; simp at h
      · rintro ⟨hN, hA⟩
        exfalso
        obtain ⟨q, hq⟩ := hstage2.mpr ⟨hpermN.mpr hN, hpermA.mpr hA⟩
        rw [h2] at hq; simp at hq
    | ok q =>
      rw [h2] at hvc
      rw [hvc]
      have := hstage2.mp ⟨_, h2⟩
      simp only [true_iff]
      exact ⟨hpermN.mp this.1, hpermA.mp this.2⟩

theorem validateConfigs_error_names (hs : List HTTPConfigM) (gs : List GRPCConfigM)
    (hh : ∀ c ∈ hs, c.handlerPresent = true)
    (hg : ∀ c ∈ gs, (c.serverPresent || c.setupPresent) = true) :
    ∀ m, validateConfigs hs gs = .error m →
      ∃ x, (2 ≤ (combinedNames hs gs).count x ∧
              (m = "duplicate HTTP server name: " ++ x ∨
               m = "duplicate gRPC server name: " ++ x)) ∨
        (x ≠ "" ∧ 2 ≤ (combinedAddrs hs gs).count x ∧
          m = "duplicate bind address: " ++ x) := by
  intro m h
  have hh' : ∀ c ∈ hs, httpKind.okOf c = true := hh
  have hg' : ∀ c ∈ gs, grpcKind.okOf c = true := hg
  have hcA : combinedAddrs hs gs =
      (hs.map HTTPConfigM.address).filter (· ≠ "") ++
      (gs.map GRPCConfigM.address).filter (· ≠ "") := by
    unfold combinedAddrs
    rw [List.filter_append]
  cases h1 : validateLoop httpKind hs [] [] with
  | error m' =>
    have hvc : validateConfigs hs gs = .error m' := by
      unfold validateConfigs; rw [h1]
    rw [hvc] at h
    simp only [Except.error.injEq] at h
    subst h
    obtain ⟨x, hx⟩ := validateLoop_error_names httpKind hs [] [] m' hh' h1
    refine ⟨x, ?_⟩
    rcases hx with ⟨hm, hcnt⟩ | ⟨hm, hne, hcnt⟩
    · refine .inl ⟨?_, .inl hm⟩
      simp only [List.nil_append, httpKind_nameOf] at hcnt
      unfold combinedNames
      rw [List.count_append]
      omega
    · refine .inr ⟨hne, ?_, hm⟩
      simp only [List.nil_append, httpKind_addrOf] at hcnt
      rw [hcA, List.count_append]
      omega
  | ok p =>
    obtain ⟨ns, as⟩ := p
    have hvc : validateConfigs hs gs =
        (match validateLoop grpcKind gs ns as with
          | .error m => .error m
          | .ok _ => .ok ()) := by
      unfold validateConfigs; rw [h1]
    have hval := validateLoop_ok_eq httpKind hs [] [] _ h1
    have hns : ns = (hs.map HTTPConfigM.name).reverse := by
      simpa using congrArg Prod.fst hval
    have has : as = ((hs.map HTTPConfigM.address).filter (· ≠ "")).reverse := by
      simpa using congrArg Prod.snd hval
    cases h2 : validateLoop grpcKind gs ns as with
    | ok q => rw [h2] at hvc; rw [hvc] at h; simp at h
    | error m' =>
      rw [h2] at hvc
      rw [hvc] at h
      simp only [Except.error.injEq] at h
      subst h
      obtain ⟨x, hx⟩ := validateLoop_error_names grpcKind gs ns as m' hg' h2
      refine ⟨x, ?_⟩
      rcases hx with ⟨hm, hcnt⟩ | ⟨hm, hne, hcnt⟩
      · refine .inl ⟨?_, .inr hm⟩
        rw [hns, List.count_append, List.count_reverse, grpcKind_nameOf] at hcnt
        unfold combinedNames
        rw [List.count_append]
        omega
      · refine .inr ⟨hne, ?_, hm⟩
        rw [has, List.count_append, List.count_reverse, grpcKind_addrOf] at hcnt
        rw [hcA, List.count_append]
        omega

/-! ## Claim theorems about construction and port normalization.

The hypotheses "every HTTP config has a handler" and "every gRPC config
has a server or a setup callback" describe every configuration that can
actually reach `NewServer`'s validation loop: `WithHTTPConfig`
(`server.go:60-62`) rejects a nil handler and `WithGRPCConfig`
(`server.go:85-87`) rejects a config with neither server nor setup
callback before appending, and `WithGateway` always supplies the gin
engine as handler, so the in-loop checks at `server.go:239-241` and
`server.go:255-257` can never fire on configurations built through the
public option surface. -/

/-- C6: a duplicate name or a duplicate non-empty bind address (across
both listener kinds) makes `NewServer` return an error that names the
conflicting name or address, and no manager; with pairwise-unique names,
pairwise-unique non-empty addresses, a handler on each HTTP registration
and a server-or-setup on each RPC registration, construction succeeds. -/
theorem newServer_validation_characterization
    (hs : List HTTPConfigM) (gs : List GRPCConfigM)
    (hh : ∀ c ∈ hs, c.handlerPresent = true)
    (hg : ∀ c ∈ gs, (c.serverPresent || c.setupPresent) = true) :
    (newServerM hs gs = .ok (hs, gs) ↔
      (combinedNames hs gs).Nodup ∧ (combinedAddrs hs gs).Nodup) ∧
    (∀ m, newServerM hs gs = .error m →
      ∃ x, (2 ≤ (combinedNames hs gs).count x ∧
              (m = "duplicate HTTP server name: " ++ x ∨
               m = "duplicate gRPC server name: " ++ x)) ∨
        (x ≠ "" ∧ 2 ≤ (combinedAddrs hs gs).count x ∧
          m = "duplicate bind address: " ++ x)) := by
  have hiff := validateConfigs_ok_iff hs gs hh hg
  cases hv : validateConfigs hs gs with
  | ok u =>
    cases u
    have h1 : newServerM hs gs = .ok (hs, gs) := by unfold newServerM; rw [hv]; rfl
    refine ⟨by rw [h1]; simp only [true_iff]; exact hiff.mp hv, ?_⟩
    intro m hm
    rw [h1] at hm
    simp at hm
  | error m0 =>
    have h1 : newServerM hs gs = .error m0 := by unfold newServerM; rw [hv]; rfl
    refine ⟨?_, ?_⟩
    · rw [h1]
      constructor
      · intro h; simp at h
      · intro hna
        have := hiff.mpr hna
        rw [hv] at this
        simp at this
    · intro m hm
      rw [h1] at hm
      simp only [Except.error.injEq] at hm
      subst hm
      exact validateConfigs_error_names hs gs hh hg m0 hv

/-- A well-formed example configuration pair used by the witnesses. -/
def exHTTP : HTTPConfigM := { name := "http-api", address := ":8080", handlerPresent := true }

/-- A well-formed example gRPC configuration used by the witnesses. -/
def exGRPC : GRPCConfigM :=
  { name := "grpc-api", address := ":9090", serverPresent := false, setupPresent := true }

/-- C6 witness: the characterization applied at a concrete valid
configuration shows construction succeeding. -/
theorem newServer_validation_characterization_witness :
    newServerM [exHTTP] [exGRPC] = .ok ([exHTTP], [exGRPC]) :=
  (newServer_validation_characterization [exHTTP] [exGRPC]
    (by decide) (by decide)).1.mpr (by decide)

/-- C7 (amended): empty bind addresses are always exempt from the
uniqueness check — `NewServer` fails exactly when the names, or the
*non-empty* addresses, contain a duplicate; any number of registrations
may share the empty address (`combinedAddrs` filters out empty
addresses, so duplicated empty addresses cannot contribute to the
right-hand side). -/
theorem newServer_emptyAddress_always_exempt
    (hs : List HTTPConfigM) (gs : List GRPCConfigM)
    (hh : ∀ c ∈ hs, c.handlerPresent = true)
    (hg : ∀ c ∈ gs, (c.serverPresent || c.setupPresent) = true) :
    (∃ m, newServerM hs gs = .error m) ↔
      (¬ (combinedNames hs gs).Nodup ∨ ¬ (combinedAddrs hs gs).Nodup) := by
  have hiff := validateConfigs_ok_iff hs gs hh hg
  cases hv : validateConfigs hs gs with
  | ok u =>
    cases u
    have h1 : newServerM hs gs = .ok (hs, gs) := by unfold newServerM; rw [hv]; rfl
    constructor
    · rintro ⟨m, hm⟩; rw [h1] at hm; simp at hm
    · intro h
      rcases h with h | h <;> exact absurd (hiff.mp hv).1 (by
        first
          | exact h
          | exact fun _ => absurd (hiff.mp hv).2 h)
  | error m0 =>
    have h1 : newServerM hs gs = .error m0 := by unfold newServerM; rw [hv]; rfl
    constructor
    · intro _
      refine (not_and_or).mp ?_
      intro hna
      have := hiff.mpr hna
      rw [hv] at this
      simp at this
    · intro _
      exact ⟨m0, h1⟩

/-- First of two ordinary registrations carrying an empty bind address. -/
def emptyAddrHTTP1 : HTTPConfigM := { name := "svc-a", address := "", handlerPresent := true }

/-- Second of two ordinary registrations carrying an empty bind address. -/
def emptyAddrHTTP2 : HTTPConfigM := { name := "svc-b", address := "", handlerPresent := true }

/-- C7 counterexample: two ordinary (non-test) registrations that both
carry an empty bind address do *not* violate any uniqueness invariant —
`NewServer` accepts them, contradicting "otherwise its address must be
unique". -/
theorem newServer_duplicate_emptyAddress_accepted :
    emptyAddrHTTP1.address = "" ∧ emptyAddrHTTP2.address = "" ∧
    newServerM [emptyAddrHTTP1, emptyAddrHTTP2] [] =
      .ok ([emptyAddrHTTP1, emptyAddrHTTP2], []) :=
  ⟨rfl, rfl, rfl⟩

/-- A registration sharing its name with `dupName2`. -/
def dupName1 : HTTPConfigM := { name := "dup", address := "", handlerPresent := true }

/-- A registration sharing its name with `dupName1`. -/
def dupName2 : HTTPConfigM := { name := "dup", address := ":1", handlerPresent := true }

/-- C7 witness: the amended characterization applied at a concrete
duplicate-name configuration. -/
theorem newServer_emptyAddress_always_exempt_witness :
    ∃ m, newServerM [dupName1, dupName2] [] = .error m :=
  (newServer_emptyAddress_always_exempt [dupName1, dupName2] []
    (by decide) (by decide)).mpr (.inl (by decide))

/-- C10: the registration helpers `WithHTTPServer`, `WithGRPCServer` and
`WithGateway` all bind the normalized port as the address, and
`normalizePort` maps `""` to `""`, keeps a string that already starts
with `':'`, prepends `':'` to every other string, and is idempotent. -/
theorem normalizePort_spec :
    (∀ name port hp, (withHTTPServerConfig name port hp).address = normalizePort port) ∧
    (∀ name port sp up, (withGRPCServerConfig name port sp up).address = normalizePort port) ∧
    (∀ name port, (withGatewayConfig name port).address = normalizePort port) ∧
    normalizePort "" = "" ∧
    (∀ p, colonPrefixed p = true → normalizePort p = p) ∧
    (∀ p, p ≠ "" → colonPrefixed p = false → normalizePort p = ":" ++ p) ∧
    (∀ p, normalizePort (normalizePort p) = normalizePort p) :=
  ⟨fun _ _ _ => rfl, fun _ _ _ _ => rfl, fun _ _ => rfl, rfl,
    normalizePort_of_colon, normalizePort_of_not_colon, normalizePort_idem⟩

/-- C10 witness: the helper and normalization rules evaluated at concrete
ports. -/
theorem normalizePort_spec_witness :
    (withHTTPServerConfig "api" "8080" true).address = normalizePort "8080" ∧
    normalizePort ":8080" = ":8080" ∧
    normalizePort "8080" = ":" ++ "8080" ∧
    normalizePort (normalizePort "8080") = normalizePort "8080" :=
  ⟨normalizePort_spec.1 "api" "8080" true,
    normalizePort_spec.2.2.2.2.1 ":8080" (by decide),
    normalizePort_spec.2.2.2.2.2.1 "8080" (by decide) (by decide),
    normalizePort_spec.2.2.2.2.2.2 "8080"⟩

/-! ## Go's `sort.Sort` (`ExecuteShutdownHooks` calls it at `server.go:549`)

`sort.Sort(data)` runs the pattern-defeating quicksort of Go's `sort`
package (`sort.go` / `zsortinterface.go`, Go ≥ 1.19): `n := data.Len();
if n <= 1 { return }; pdqsort(data, 0, n, bits.Len(uint(n)))`.  The
slice underlying the `sort.Interface` is modelled as a `List α`; `Less`
is a boolean `lt` on elements and `Swap` exchanges two positions.  Loops
over mutable indices become recursion (with a fuel counter where Go's
termination argument relies on signed-integer arithmetic); fuel is chosen
generously at the entry point, and running out of fuel returns the slice
unchanged.  Every mutation of the slice goes through `lswap`, mirroring
the fact that the algorithm only ever calls `data.Swap`. -/

/-- Model of `data.Swap(i, j)` on a list; out-of-range indices (never produced by
the sort on its real inputs) leave the list unchanged. -/
def lswap (l : List α) (i j : Nat) : List α :=
  match l[i]?, l[j]? with
  | some x, some y => (l.set i y).set j x
  | _, _ => l

/-- Element read `data[i]`, defaulting out of range (never reached). -/
def lget [Inhabited α] (l : List α) (i : Nat) : α :=
  l.getD i default

/-- Model of `data.Less(i, j)`. -/
def lessAt [Inhabited α] (lt : α → α → Bool) (l : List α) (i j : Nat) : Bool :=
  lt (lget l i) (lget l j)

/-- The inner loop of Go's `insertionSort`
(`for j := i; j > a && data.Less(j, j-1); j--  { data.Swap(j, j-1) }`)
expressed on the *reversed* already-sorted prefix: the element `x`
bubbles left past every predecessor `y` with `lt x y` and stops at the
first predecessor with `¬ lt x y`. -/
def bubbleRev (lt : α → α → Bool) (x : α) : List α → List α
  | [] => [x]
  | y :: rl => if lt x y then y :: bubbleRev lt x rl else x :: y :: rl

/-- Go's `insertionSort(data, a, b)` restricted to a whole list: the
outer loop `for i := a+1; i < b; i++` inserts each element into the
sorted prefix via the bubbling inner loop. -/
def goIns (lt : α → α → Bool) (l : List α) : List α :=
  (l.foldl (fun racc v => bubbleRev lt v racc) []).reverse

/-- Go's `insertionSort(data, a, b)`: the subrange `[a, b)` is sorted in
place (stably, by bubbling swaps) and the rest of the slice is
untouched.  (The suffix is written `(l.drop a).drop (b - a)`, which
equals `l.drop b` at every call site since `a ≤ b` there, and makes the
prefix/middle/suffix decomposition of the slice unconditional.) -/
def insertionSortRange (lt : α → α → Bool) (l : List α) (a b : Nat) : List α :=
  l.take a ++ goIns lt ((l.drop a).take (b - a)) ++ (l.drop a).drop (b - a)

/-- Go's `siftDown(data, lo, hi, first)`; the loop advances `root` to a
child index each iteration, so `hi` iterations of fuel always suffice. -/
def siftDownGo [Inhabited α] (lt : α → α → Bool) :
    Nat → List α → Nat → Nat → Nat → List α
  | 0, l, _, _, _ => l
  | fuel + 1, l, root, hi, first =>
    let child := 2 * root + 1
    if child ≥ hi then l
    else
      let child :=
        if child + 1 < hi ∧ lessAt lt l (first + child) (first + child + 1) then child + 1
        else child
      if ¬ lessAt lt l (first + root) (first + child) then l
      else siftDownGo lt fuel (lswap l (first + root) (first + child)) child hi first

/-- Build phase of Go's `heapSort`: `for i := (hi-1)/2; i >= 0; i--`
running `siftDown(data, i, hi, first)`. -/
def heapBuild [Inhabited α] (lt : α → α → Bool) (l : List α) :
    Nat → Nat → Nat → List α
  | k, hi, first =>
    let l' := siftDownGo lt hi l k hi first
    match k with
    | 0 => l'
    | k' + 1 => heapBuild lt l' k' hi first

/-- Pop phase of Go's `heapSort`: `for i := hi-1; i >= 0; i--` running
`data.Swap(first, first+i); siftDown(data, lo, i, first)`. -/
def heapPop [Inhabited α] (lt : α → α → Bool) (l : List α) :
    Nat → Nat → List α
  | k, first =>
    let l' := siftDownGo lt k (lswap l first (first + k)) 0 k first
    match k with
    | 0 => l'
    | k' + 1 => heapPop lt l' k' first

/-- Go's `heapSort(data, a, b)` (only reached for ranges longer than 12,
so `b - a ≥ 1` always holds at its call sites). -/
def heapSortGo [Inhabited α] (lt : α → α → Bool) (l : List α) (a b : Nat) : List α :=
  let hi := b - a
  let l₁ := heapBuild lt l ((hi - 1) / 2) hi a
  if hi = 0 then l₁ else heapPop lt l₁ (hi - 1) a

/-- Go's `reverseRange(data, a, b)` with `j` already set to `b - 1`:
`for i < j { data.Swap(i, j); i++; j-- }`.  (The loop runs at most
`j - i` times; callers supply at least that much fuel.) -/
def reverseRangeGo : Nat → List α → Nat → Nat → List α
  | 0, l, _, _ => l
  | fuel + 1, l, i, j =>
    if i < j then reverseRangeGo fuel (lswap l i j) (i + 1) (j - 1) else l

/-- Go's `order2(data, a, b, swaps)`: swap the two indices (and count a
swap) when `data.Less(b, a)`. -/
def order2Go [Inhabited α] (lt : α → α → Bool) (l : List α) (a b swaps : Nat) :
    Nat × Nat × Nat :=
  if lessAt lt l b a then (b, a, swaps + 1) else (a, b, swaps)

/-- Go's `median(data, a, b, c, swaps)`. -/
def medianIdx [Inhabited α] (lt : α → α → Bool) (l : List α) (a b c swaps : Nat) :
    Nat × Nat :=
  let r₁ := order2Go lt l a b swaps
  let r₂ := order2Go lt l r₁.2.1 c r₁.2.2
  let r₃ := order2Go lt l r₁.1 r₂.1 r₂.2.2
  (r₃.2.1, r₃.2.2)

/-- Go's `medianAdjacent(data, a, swaps)`. -/
def medianAdjacentIdx [Inhabited α] (lt : α → α → Bool) (l : List α) (a swaps : Nat) :
    Nat × Nat :=
  medianIdx lt l (a - 1) a (a + 1) swaps

/-- The `sortedHint` enum of Go's `choosePivot`. -/
inductive Hint where
  | increasing
  | decreasing
  | unknown
deriving DecidableEq, Repr

/-- Go's `choosePivot(data, a, b)`: static pivot below length 8, median
of three up to length 49, Tukey ninther beyond; `maxSwaps = 12`. -/
def choosePivotGo [Inhabited α] (lt : α → α → Bool) (l : List α) (a b : Nat) :
    Nat × Hint :=
  let len := b - a
  let i := a + len / 4 * 1
  let j := a + len / 4 * 2
  let k := a + len / 4 * 3
  let r :=
    if len ≥ 8 then
      let s :=
        if len ≥ 50 then
          let mi := medianAdjacentIdx lt l i 0
          let mj := medianAdjacentIdx lt l j mi.2
          let mk := medianAdjacentIdx lt l k mj.2
          (mi.1, mj.1, mk.1, mk.2)
        else (i, j, k, 0)
      let m := medianIdx lt l s.1 s.2.1 s.2.2.1 s.2.2.2
      (m.1, m.2)
    else (j, 0)
  if r.2 = 0 then (r.1, Hint.increasing)
  else if r.2 = 12 then (r.1, Hint.decreasing)
  else (r.1, Hint.unknown)

/-- One step of Go's `xorshift` PRNG on `uint64`. -/
def xorshiftNext (r : Nat) : Nat :=
  let r₁ := (r ^^^ (r <<< 13)) % 2 ^ 64
  let r₂ := (r₁ ^^^ (r₁ >>> 7)) % 2 ^ 64
  (r₂ ^^^ (r₂ <<< 17)) % 2 ^ 64

/-- Fuel-driven bit-length recursion (`n` itself is enough fuel since
`n / 2 < n` for positive `n`). -/
def bitsLenAux : Nat → Nat → Nat
  | 0, _ => 0
  | fuel + 1, n => if n = 0 then 0 else bitsLenAux fuel (n / 2) + 1

/-- Go's `bits.Len(uint(n))`: the number of bits needed to represent
`n`. -/
def bitsLen (n : Nat) : Nat :=
  bitsLenAux n n

/-- Go's `breakPatterns(data, a, b)`: three pseudo-random swaps around
the midpoint, seeded with the range length (`nextPowerOfTwo(length)` is
`1 << bits.Len(uint(length))`). -/
def breakPatternsGo (l : List α) (a b : Nat) : List α :=
  let len := b - a
  if len ≥ 8 then
    let modulus := 2 ^ bitsLen len
    let idx := a + len / 4 * 2 - 1
    let s₁ := xorshiftNext len
    let o₁ := let o := s₁ &&& (modulus - 1); if o ≥ len then o - len else o
    let l := lswap l (idx - 1) (a + o₁)
    let s₂ := xorshiftNext s₁
    let o₂ := let o := s₂ &&& (modulus - 1); if o ≥ len then o - len else o
    let l := lswap l idx (a + o₂)
    let s₃ := xorshiftNext s₂
    let o₃ := let o := s₃ &&& (modulus - 1); if o ≥ len then o - len else o
    lswap l (idx + 1) (a + o₃)
  else l

/-- The scan `for i < b && !data.Less(i, i-1) { i++ }` of Go's
`partialInsertionSort` (at most `b - i` iterations). -/
def scanUp [Inhabited α] (lt : α → α → Bool) : Nat → List α → Nat → Nat → Nat
  | 0, _, i, _ => i
  | fuel + 1, l, i, b =>
    if i < b ∧ ¬ lessAt lt l i (i - 1) then scanUp lt fuel l (i + 1) b else i

/-- The shift-to-the-left loop of Go's `partialInsertionSort`
(`for j := i-1; j >= 1; j--`). -/
def shiftLeftLoop [Inhabited α] (lt : α → α → Bool) (l : List α) : Nat → List α
  | 0 => l
  | j + 1 =>
    if ¬ lessAt lt l (j + 1) j then l
    else shiftLeftLoop lt (lswap l (j + 1) j) j

/-- The shift-to-the-right loop of Go's `partialInsertionSort`
(`for j := i+1; j < b; j++`; at most `b - j` iterations). -/
def shiftRightLoop [Inhabited α] (lt : α → α → Bool) : Nat → List α → Nat → Nat → List α
  | 0, l, _, _ => l
  | fuel + 1, l, j, b =>
    if j < b then
      if ¬ lessAt lt l j (j - 1) then l
      else shiftRightLoop lt fuel (lswap l j (j - 1)) (j + 1) b
    else l

/-- The outer loop (`maxSteps = 5`) of Go's `partialInsertionSort`;
`shortestShifting = 50` means no swap ever happens on ranges shorter
than 50. -/
def partialInsertionSortLoop [Inhabited α] (lt : α → α → Bool) :
    Nat → List α → Nat → Nat → Nat → List α × Bool
  | 0, l, _, _, _ => (l, false)
  | steps + 1, l, i, a, b =>
    let i := scanUp lt (b + 1) l i b
    if i = b then (l, true)
    else if b - a < 50 then (l, false)
    else
      let l := lswap l i (i - 1)
      let l := if i - a ≥ 2 then shiftLeftLoop lt l (i - 1) else l
      let l := if b - i ≥ 2 then shiftRightLoop lt b l (i + 1) b else l
      partialInsertionSortLoop lt steps l i a b

/-- Go's `partialInsertionSort(data, a, b)`. -/
def partialInsertionSortGo [Inhabited α] (lt : α → α → Bool) (l : List α) (a b : Nat) :
    List α × Bool :=
  partialInsertionSortLoop lt 5 l (a + 1) a b

/-- The advance `for i <= j && data.Less(i, a) { i++ }` of Go's
`partition` (at most `j + 1 - i` iterations, so callers supply `j + 2`
fuel). -/
def partAdvanceI [Inhabited α] (lt : α → α → Bool) : Nat → List α → Nat → Nat → Nat → Nat
  | 0, _, i, _, _ => i
  | fuel + 1, l, i, j, a =>
    if i ≤ j ∧ lessAt lt l i a then partAdvanceI lt fuel l (i + 1) j a else i

/-- The retreat `for i <= j && !data.Less(j, a) { j-- }` of Go's
`partition` (its call sites always have `i ≥ a + 1 ≥ 1`, so `j` never
has to go below zero). -/
def partRetreatJ [Inhabited α] (lt : α → α → Bool) (l : List α) (i : Nat) :
    Nat → Nat → Nat
  | 0, _ => 0
  | j + 1, a =>
    if i ≤ j + 1 ∧ ¬ lessAt lt l (j + 1) a then partRetreatJ lt l i j a else j + 1

/-- The main loop of Go's `partition` after the first crossing swap. -/
def partitionLoop [Inhabited α] (lt : α → α → Bool) :
    Nat → List α → Nat → Nat → Nat → List α × Nat
  | 0, l, _, j, _ => (l, j)
  | fuel + 1, l, i, j, a =>
    let i := partAdvanceI lt (j + 2) l i j a
    let j := partRetreatJ lt l i j a
    if i > j then (l, j)
    else partitionLoop lt fuel (lswap l i j) (i + 1) (j - 1) a

/-- Go's `partition(data, a, b, pivot)`: moves the pivot to `a`,
partitions `[a+1, b)` around it, and returns the slice, the new pivot
position and whether the range was already partitioned. -/
def partitionGo [Inhabited α] (lt : α → α → Bool) (l : List α) (a b pivot : Nat) :
    List α × Nat × Bool :=
  let l := lswap l a pivot
  let i := a + 1
  let j := b - 1
  let i := partAdvanceI lt (j + 2) l i j a
  let j := partRetreatJ lt l i j a
  if i > j then (lswap l j a, j, true)
  else
    let l := lswap l i j
    let r := partitionLoop lt b l (i + 1) (j - 1) a
    (lswap r.1 r.2 a, r.2, false)

/-- The advance `for i <= j && !data.Less(a, i) { i++ }` of Go's
`partitionEqual` (at most `j + 1 - i` iterations). -/
def peqAdvanceI [Inhabited α] (lt : α → α → Bool) : Nat → List α → Nat → Nat → Nat → Nat
  | 0, _, i, _, _ => i
  | fuel + 1, l, i, j, a =>
    if i ≤ j ∧ ¬ lessAt lt l a i then peqAdvanceI lt fuel l (i + 1) j a else i

/-- The retreat `for i <= j && data.Less(a, j) { j-- }` of Go's
`partitionEqual`. -/
def peqRetreatJ [Inhabited α] (lt : α → α → Bool) (l : List α) (i : Nat) :
    Nat → Nat → Nat
  | 0, _ => 0
  | j + 1, a =>
    if i ≤ j + 1 ∧ lessAt lt l a (j + 1) then peqRetreatJ lt l i j a else j + 1

/-- The loop of Go's `partitionEqual`. -/
def partitionEqualLoop [Inhabited α] (lt : α → α → Bool) :
    Nat → List α → Nat → Nat → Nat → List α × Nat
  | 0, l, i, _, _ => (l, i)
  | fuel + 1, l, i, j, a =>
    let i := peqAdvanceI lt (j + 2) l i j a
    let j := peqRetreatJ lt l i j a
    if i > j then (l, i)
    else partitionEqualLoop lt fuel (lswap l i j) (i + 1) (j - 1) a

/-- Go's `partitionEqual(data, a, b, pivot)`: returns the slice and the
first index after the run of elements equal to the pivot. -/
def partitionEqualGo [Inhabited α] (lt : α → α → Bool) (l : List α) (a b pivot : Nat) :
    List α × Nat :=
  let l := lswap l a pivot
  partitionEqualLoop lt b l (a + 1) (b - 1) a

/-- Go's `pdqsort(data, a, b, limit)` with an explicit fuel counter for
the outer `for {}` loop (each iteration either returns or shrinks the
range, so the fuel chosen by `sortSortGo` is never exhausted);
`maxInsertion = 12`. -/
def pdqsortFuel [Inhabited α] (lt : α → α → Bool) :
    Nat → List α → Nat → Nat → Nat → Bool → Bool → List α
  | 0, l, _, _, _, _, _ => l
  | fuel + 1, l, a, b, limit, wasBalanced, wasPartitioned =>
    let length := b - a
    if length ≤ 12 then insertionSortRange lt l a b
    else if limit = 0 then heapSortGo lt l a b
    else
      let st := if ¬ wasBalanced then (breakPatternsGo l a b, limit - 1) else (l, limit)
      let l := st.1
      let limit := st.2
      let pv := choosePivotGo lt l a b
      let rv :=
        if pv.2 = Hint.decreasing then
          (reverseRangeGo b l a (b - 1), (b - 1) - (pv.1 - a), Hint.increasing)
        else (l, pv.1, pv.2)
      let l := rv.1
      let pivot := rv.2.1
      let hint := rv.2.2
      let ps :=
        if wasBalanced ∧ wasPartitioned ∧ hint = Hint.increasing then
          partialInsertionSortGo lt l a b
        else (l, false)
      let l := ps.1
      if ps.2 then l
      else if a > 0 ∧ ¬ lessAt lt l (a - 1) pivot then
        let pe := partitionEqualGo lt l a b pivot
        pdqsortFuel lt fuel pe.1 pe.2 b limit wasBalanced wasPartitioned
      else
        let pr := partitionGo lt l a b pivot
        let mid := pr.2.1
        let wasPartitioned := pr.2.2
        let leftLen := mid - a
        let rightLen := b - mid
        let balanceThreshold := length / 8
        let wasBalanced := decide (min leftLen rightLen ≥ balanceThreshold)
        if leftLen < rightLen then
          let l := pdqsortFuel lt fuel pr.1 a mid limit true true
          pdqsortFuel lt fuel l (mid + 1) b limit wasBalanced wasPartitioned
        else
          let l := pdqsortFuel lt fuel pr.1 (mid + 1) b limit true true
          pdqsortFuel lt fuel l a (mid + 1) limit wasBalanced wasPartitioned

/-- Go's `sort.Sort(data)`: nothing to do below two elements, otherwise
`pdqsort(data, 0, n, bits.Len(uint(n)))`. -/
def sortSortGo [Inhabited α] (lt : α → α → Bool) (l : List α) : List α :=
  let n := l.length
  if n ≤ 1 then l
  else pdqsortFuel lt ((n + 1) * (n + 1) + 64) l 0 n (bitsLen n) true true

/-! ### The sort only permutes: every mutation is a swap. -/

theorem getElem_cons_set_perm :
    ∀ (t : List α) (m : Nat) (a : α) (h : m < t.length), t[m] :: t.set m a ~ a :: t := by
  intro t
  induction t with
  | nil => intro m a h; simp at h
  | cons b s ih =>
    intro m a h
    cases m with
    | zero => simpa using List.Perm.swap a b s
    | succ m =>
      have hm : m < s.length := by simpa using h
      have step1 : s[m] :: b :: s.set m a ~ b :: s[m] :: s.set m a := List.Perm.swap _ _ _
      have step2 : b :: s[m] :: s.set m a ~ b :: a :: s := (ih m a hm).cons b
      have step3 : b :: a :: s ~ a :: b :: s := List.Perm.swap _ _ _
      simpa using (step1.trans step2).trans step3

theorem set_of_getElem? : ∀ (l : List α) (i : Nat) (x : α), l[i]? = some x → l.set i x = l := by
  intro l
  induction l with
  | nil => intro i x h; simp at h
  | cons b s ih =>
    intro i x h
    cases i with
    | zero => simp at h; simp [h]
    | succ i =>
      simp only [List.getElem?_cons_succ] at h
      simp [ih i x h]

theorem lswap_perm_lt :
    ∀ (l : List α) (i j : Nat) (x y : α), i < j →
      l[i]? = some x → l[j]? = some y → (l.set i y).set j x ~ l := by
  intro l
  induction l with
  | nil => intro i j x y _ h _; simp at h
  | cons b s ih =>
    intro i j x y hij hx hy
    cases i with
    | zero =>
      obtain ⟨m, rfl⟩ : ∃ m, j = m + 1 := ⟨j - 1, by omega⟩
      simp only [List.getElem?_cons_zero, Option.some.injEq] at hx
      simp only [List.getElem?_cons_succ] at hy
      have hm : m < s.length := (List.getElem?_eq_some_iff.mp hy).1
      have hyv : s[m] = y := by
        have := List.getElem?_eq_getElem hm
        rw [this] at hy
        exact (Option.some.injEq _ _).mp hy
      subst hx
      simpa [hyv] using getElem_cons_set_perm s m b hm
    | succ i =>
      obtain ⟨m, rfl⟩ : ∃ m, j = m + 1 := ⟨j - 1, by omega⟩
      simp only [List.getElem?_cons_succ] at hx hy
      simpa using (ih i m x y (by omega) hx hy).cons b

/-- Swapping two positions permutes the list. -/
theorem lswap_perm (l : List α) (i j : Nat) : lswap l i j ~ l := by
  cases hx : l[i]? with
  | none =>
    have heq : lswap l i j = l := by unfold lswap; rw [hx]
    rw [heq]
  | some x =>
    cases hy : l[j]? with
    | none =>
      have heq : lswap l i j = l := by unfold lswap; rw [hx, hy]
      rw [heq]
    | some y =>
      have heq : lswap l i j = (l.set i y).set j x := by unfold lswap; rw [hx, hy]
      rw [heq]
      rcases Nat.lt_trichotomy i j with h | h | h
      · exact lswap_perm_lt l i j x y h hx hy
      · subst h
        rw [hx] at hy
        cases hy
        rw [List.set_set, set_of_getElem? l i x hx]
      · rw [List.set_comm _ _ _ (by omega : i ≠ j)]
        exact lswap_perm_lt l j i y x h hy hx

theorem siftDownGo_perm [Inhabited α] (lt : α → α → Bool) :
    ∀ (fuel : Nat) (l : List α) (root hi first : Nat),
      siftDownGo lt fuel l root hi first ~ l := by
  intro fuel
  induction fuel with
  | zero => intro l root hi first; exact .refl _
  | succ fuel ih =>
    intro l root hi first
    rw [siftDownGo]
    dsimp only
    split
    · exact .refl _
    · split <;> split
      all_goals
        first
          | exact .refl _
          | exact (ih _ _ _ _).trans (lswap_perm _ _ _)

theorem heapBuild_perm [Inhabited α] (lt : α → α → Bool) :
    ∀ (k : Nat) (l : List α) (hi first : Nat), heapBuild lt l k hi first ~ l := by
  intro k
  induction k with
  | zero =>
    intro l hi first
    rw [heapBuild]
    exact siftDownGo_perm lt _ _ _ _ _
  | succ k ih =>
    intro l hi first
    rw [heapBuild]
    exact (ih _ _ _).trans (siftDownGo_perm lt _ _ _ _ _)

theorem heapPop_perm [Inhabited α] (lt : α → α → Bool) :
    ∀ (k : Nat) (l : List α) (first : Nat), heapPop lt l k first ~ l := by
  intro k
  induction k with
  | zero =>
    intro l first
    rw [heapPop]
    exact (siftDownGo_perm lt _ _ _ _ _).trans (lswap_perm _ _ _)
  | succ k ih =>
    intro l first
    rw [heapPop]
    exact (ih _ _).trans ((siftDownGo_perm lt _ _ _ _ _).trans (lswap_perm _ _ _))

theorem heapSortGo_perm [Inhabited α] (lt : α → α → Bool) (l : List α) (a b : Nat) :
    heapSortGo lt l a b ~ l := by
  unfold heapSortGo
  dsimp only
  split
  · exact heapBuild_perm lt _ _ _ _
  · exact (heapPop_perm lt _ _ _).trans (heapBuild_perm lt _ _ _ _)

theorem reverseRangeGo_perm :
    ∀ (fuel : Nat) (l : List α) (i j : Nat), reverseRangeGo fuel l i j ~ l := by
  intro fuel
  induction fuel with
  | zero => intro l i j; exact .refl _
  | succ fuel ih =>
    intro l i j
    rw [reverseRangeGo]
    split
    · exact (ih _ _ _).trans (lswap_perm _ _ _)
    · exact .refl _

theorem breakPatternsGo_perm (l : List α) (a b : Nat) : breakPatternsGo l a b ~ l := by
  unfold breakPatternsGo
  dsimp only
  split
  · exact (lswap_perm _ _ _).trans ((lswap_perm _ _ _).trans (lswap_perm _ _ _))
  · exact .refl _

theorem shiftLeftLoop_perm [Inhabited α] (lt : α → α → Bool) :
    ∀ (j : Nat) (l : List α), shiftLeftLoop lt l j ~ l := by
  intro j
  induction j with
  | zero => intro l; exact .refl _
  | succ j ih =>
    intro l
    rw [shiftLeftLoop]
    split
    · exact .refl _
    · exact (ih _).trans (lswap_perm _ _ _)

theorem shiftRightLoop_perm [Inhabited α] (lt : α → α → Bool) :
    ∀ (fuel : Nat) (l : List α) (j b : Nat), shiftRightLoop lt fuel l j b ~ l := by
  intro fuel
  induction fuel with
  | zero => intro l j b; exact .refl _
  | succ fuel ih =>
    intro l j b
    rw [shiftRightLoop]
    split
    · split
      · exact .refl _
      · exact (ih _ _ _).trans (lswap_perm _ _ _)
    · exact .refl _

theorem partialInsertionSortLoop_fst_perm [Inhabited α] (lt : α → α → Bool) :
    ∀ (steps : Nat) (l : List α) (i a b : Nat),
      (partialInsertionSortLoop lt steps l i a b).1 ~ l := by
  intro steps
  induction steps with
  | zero => intro l i a b; exact .refl _
  | succ steps ih =>
    intro l i a b
    rw [partialInsertionSortLoop]
    dsimp only
    split
    · exact .refl _
    · split
      · exact .refl _
      · refine (ih _ _ _ _).trans ?_
        split <;> split
        all_goals
          first
            | exact (shiftRightLoop_perm lt _ _ _ _).trans
                ((shiftLeftLoop_perm lt _ _).trans (lswap_perm _ _ _))
            | exact (shiftRightLoop_perm lt _ _ _ _).trans (lswap_perm _ _ _)
            | exact (shiftLeftLoop_perm lt _ _).trans (lswap_perm _ _ _)
            | exact lswap_perm _ _ _

theorem partialInsertionSortGo_fst_perm [Inhabited α] (lt : α → α → Bool)
    (l : List α) (a b : Nat) : (partialInsertionSortGo lt l a b).1 ~ l :=
  partialInsertionSortLoop_fst_perm lt 5 l (a + 1) a b

theorem partitionLoop_fst_perm [Inhabited α] (lt : α → α → Bool) :
    ∀ (fuel : Nat) (l : List α) (i j a : Nat), (partitionLoop lt fuel l i j a).1 ~ l := by
  intro fuel
  induction fuel with
  | zero => intro l i j a; exact .refl _
  | succ fuel ih =>
    intro l i j a
    rw [partitionLoop]
    split
    · exact .refl _
    · exact (ih _ _ _ _).trans (lswap_perm _ _ _)

theorem partitionGo_fst_perm [Inhabited α] (lt : α → α → Bool)
    (l : List α) (a b pivot : Nat) : (partitionGo lt l a b pivot).1 ~ l := by
  unfold partitionGo
  dsimp only
  split <;> dsimp only
  · exact (lswap_perm _ _ _).trans (lswap_perm _ _ _)
  · exact (lswap_perm _ _ _).trans ((partitionLoop_fst_perm lt _ _ _ _ _).trans
      ((lswap_perm _ _ _).trans (lswap_perm _ _ _)))

theorem partitionEqualLoop_fst_perm [Inhabited α] (lt : α → α → Bool) :
    ∀ (fuel : Nat) (l : List α) (i j a : Nat),
      (partitionEqualLoop lt fuel l i j a).1 ~ l := by
  intro fuel
  induction fuel with
  | zero => intro l i j a; exact .refl _
  | succ fuel ih =>
    intro l i j a
    rw [partitionEqualLoop]
    split
    · exact .refl _
    · exact (ih _ _ _ _).trans (lswap_perm _ _ _)

theorem partitionEqualGo_fst_perm [Inhabited α] (lt : α → α → Bool)
    (l : List α) (a b pivot : Nat) : (partitionEqualGo lt l a b pivot).1 ~ l := by
  unfold partitionEqualGo
  dsimp only
  exact (partitionEqualLoop_fst_perm lt _ _ _ _ _).trans (lswap_perm _ _ _)

theorem bubbleRev_perm (lt : α → α → Bool) (x : α) :
    ∀ racc : List α, bubbleRev lt x racc ~ x :: racc := by
  intro racc
  induction racc with
  | nil => exact .refl _
  | cons y rl ih =>
    rw [bubbleRev]
    split
    · exact (ih.cons y).trans (List.Perm.swap x y rl)
    · exact .refl _

theorem foldl_bubbleRev_perm (lt : α → α → Bool) :
    ∀ (l racc : List α), l.foldl (fun r v => bubbleRev lt v r) racc ~ l ++ racc := by
  intro l
  induction l with
  | nil => intro racc; simp
  | cons x xs ih =>
    intro racc
    rw [List.foldl_cons]
    refine ((ih _).trans ?_)
    refine ((bubbleRev_perm lt x racc).append_left xs).trans ?_
    exact List.perm_middle

theorem goIns_perm (lt : α → α → Bool) (l : List α) : goIns lt l ~ l := by
  unfold goIns
  refine ((l.foldl _ []).reverse_perm).trans ?_
  refine (foldl_bubbleRev_perm lt l []).trans ?_
  simp

theorem insertionSortRange_perm (lt : α → α → Bool) (l : List α) (a b : Nat) :
    insertionSortRange lt l a b ~ l := by
  unfold insertionSortRange
  have h₁ : l.take a ++ goIns lt ((l.drop a).take (b - a)) ++ (l.drop a).drop (b - a) ~
      l.take a ++ (l.drop a).take (b - a) ++ (l.drop a).drop (b - a) :=
    (((goIns_perm lt _).append_left (l.take a)).append_right _)
  refine h₁.trans ?_
  rw [List.append_assoc, List.take_append_drop, List.take_append_drop]

theorem pdqsortFuel_perm [Inhabited α] (lt : α → α → Bool) :
    ∀ (fuel : Nat) (l : List α) (a b limit : Nat) (wb wp : Bool),
      pdqsortFuel lt fuel l a b limit wb wp ~ l := by
  intro fuel
  induction fuel with
  | zero => intro l a b limit wb wp; exact .refl _
  | succ fuel ih =>
    intro l a b limit wb wp
    rw [pdqsortFuel]
    by_cases h12 : b - a ≤ 12
    · rw [if_pos h12]; exact insertionSortRange_perm lt l a b
    · rw [if_neg h12]
      by_cases h0 : limit = 0
      · rw [if_pos h0]; exact heapSortGo_perm lt l a b
      · rw [if_neg h0]
        obtain ⟨l₁, limit₁, heq₁, hp₁⟩ :
            ∃ l₁ limit₁, (if ¬ wb then (breakPatternsGo l a b, limit - 1)
              else (l, limit)) = (l₁, limit₁) ∧ l₁ ~ l := by
          split
          · exact ⟨_, _, rfl, breakPatternsGo_perm l a b⟩
          · exact ⟨_, _, rfl, .refl _⟩
        rw [heq₁]
        dsimp only
        obtain ⟨l₂, pivot₂, hint₂, heq₂, hp₂⟩ :
            ∃ l₂ pivot₂ hint₂,
              (if (choosePivotGo lt l₁ a b).2 = Hint.decreasing then
                  (reverseRangeGo b l₁ a (b - 1),
                    (b - 1) - ((choosePivotGo lt l₁ a b).1 - a), Hint.increasing)
                else (l₁, (choosePivotGo lt l₁ a b).1, (choosePivotGo lt l₁ a b).2)) =
                (l₂, pivot₂, hint₂) ∧ l₂ ~ l₁ := by
          split
          · exact ⟨_, _, _, rfl, reverseRangeGo_perm b l₁ a (b - 1)⟩
          · exact ⟨_, _, _, rfl, .refl _⟩
        rw [heq₂]
        dsimp only
        obtain ⟨l₃, srt₃, heq₃, hp₃⟩ :
            ∃ l₃ srt₃,
              (if wb = true ∧ wp = true ∧ hint₂ = Hint.increasing then
                  partialInsertionSortGo lt l₂ a b
                else (l₂, false)) = (l₃, srt₃) ∧ l₃ ~ l₂ := by
          split
          · exact ⟨_, _, (Prod.mk.eta).symm, partialInsertionSortGo_fst_perm lt l₂ a b⟩
          · exact ⟨_, _, rfl, .refl _⟩
        rw [heq₃]
        dsimp only
        have hp₁₃ : l₃ ~ l := (hp₃.trans hp₂).trans hp₁
        split
        · exact hp₁₃
        · split
          · exact (ih _ _ _ _ _ _).trans
              ((partitionEqualGo_fst_perm lt l₃ a b pivot₂).trans hp₁₃)
          · split
            · exact (ih _ _ _ _ _ _).trans ((ih _ _ _ _ _ _).trans
                ((partitionGo_fst_perm lt l₃ a b pivot₂).trans hp₁₃))
            · exact (ih _ _ _ _ _ _).trans ((ih _ _ _ _ _ _).trans
                ((partitionGo_fst_perm lt l₃ a b pivot₂).trans hp₁₃))

/-- Go's `sort.Sort` only permutes the slice. -/
theorem sortSortGo_perm [Inhabited α] (lt : α → α → Bool) (l : List α) :
    sortSortGo lt l ~ l := by
  unfold sortSortGo
  dsimp only
  split
  · exact .refl _
  · exact pdqsortFuel_perm lt _ l 0 l.length (bitsLen l.length) true true

/-! ### The insertion-sort path (ranges of at most 12 elements) is a
stable ascending sort when `Less` compares an integer key. -/

/-- The comparison `ShutdownHooks.Less` has shape "integer key of the
left element is less than integer key of the right element"; the
stability lemmas below are proved for any such keyed comparison. -/
def keyLt (key : α → Int) : α → α → Bool :=
  fun x y => decide (key x < key y)

theorem bubbleRev_pairwise_ge (key : α → Int) (x : α) :
    ∀ racc : List α, racc.Pairwise (fun u v => key v ≤ key u) →
      (bubbleRev (keyLt key) x racc).Pairwise (fun u v => key v ≤ key u) := by
  intro racc
  induction racc with
  | nil => intro _; simp [bubbleRev]
  | cons y rl ih =>
    intro h
    rw [List.pairwise_cons] at h
    obtain ⟨hy, hrl⟩ := h
    rw [bubbleRev]
    split
    · rename_i hlt
      rw [List.pairwise_cons]
      refine ⟨?_, ih hrl⟩
      intro z hz
      have hz' := (bubbleRev_perm (keyLt key) x rl).mem_iff.mp hz
      rcases List.mem_cons.mp hz' with rfl | hzr
      · have : key z < key y := by simpa [keyLt] using hlt
        omega
      · exact hy z hzr
    · rename_i hnlt
      have hxy : ¬ key x < key y := by simpa [keyLt] using hnlt
      rw [List.pairwise_cons]
      refine ⟨?_, List.pairwise_cons.mpr ⟨hy, hrl⟩⟩
      intro z hz
      rcases List.mem_cons.mp hz with rfl | hzr
      · omega
      · have := hy z hzr
        omega

theorem foldl_bubbleRev_pairwise (key : α → Int) :
    ∀ (l racc : List α), racc.Pairwise (fun u v => key v ≤ key u) →
      (l.foldl (fun r v => bubbleRev (keyLt key) v r) racc).Pairwise
        (fun u v => key v ≤ key u) := by
  intro l
  induction l with
  | nil => intro racc h; simpa using h
  | cons x xs ih =>
    intro racc h
    rw [List.foldl_cons]
    exact ih _ (bubbleRev_pairwise_ge key x racc h)

/-- The insertion-sorted list is ascending in the key. -/
theorem goIns_sorted (key : α → Int) (l : List α) :
    (goIns (keyLt key) l).Pairwise (fun u v => key u ≤ key v) := by
  unfold goIns
  rw [List.pairwise_reverse]
  exact foldl_bubbleRev_pairwise key l [] (by simp)

theorem bubbleRev_reverse_filter (key : α → Int) (p : Int) (x : α) :
    ∀ racc : List α,
      ((bubbleRev (keyLt key) x racc).reverse).filter (fun z => decide (key z = p)) =
        (racc.reverse).filter (fun z => decide (key z = p)) ++
          (if key x = p then [x] else []) := by
  intro racc
  induction racc with
  | nil =>
    rw [bubbleRev]
    by_cases hp : key x = p <;> simp [List.filter, hp]
  | cons y rl ih =>
    rw [bubbleRev]
    split
    · rename_i hlt
      have hxy : key x < key y := by simpa [keyLt] using hlt
      rw [List.reverse_cons, List.filter_append, ih, List.reverse_cons,
        List.filter_append, List.append_assoc, List.append_assoc]
      congr 1
      by_cases hp : key x = p
      · have hyp : ¬ key y = p := by omega
        simp [hp, hyp, List.filter]
      · simp [hp]
    · rw [List.reverse_cons, List.filter_append]
      congr 1
      by_cases hp : key x = p <;> simp [List.filter, hp]

theorem foldl_bubbleRev_filter (key : α → Int) (p : Int) :
    ∀ (l racc : List α),
      ((l.foldl (fun r v => bubbleRev (keyLt key) v r) racc).reverse).filter
          (fun z => decide (key z = p)) =
        (racc.reverse).filter (fun z => decide (key z = p)) ++
          l.filter (fun z => decide (key z = p)) := by
  intro l
  induction l with
  | nil => intro racc; simp
  | cons x xs ih =>
    intro racc
    rw [List.foldl_cons, ih, bubbleRev_reverse_filter, List.append_assoc]
    congr 1
    rw [List.filter_cons]
    by_cases hp : key x = p
    · simp [hp]
    · simp [hp]

/-- Stability of the insertion sort: the sublist of elements whose key is
any given `p` is returned unchanged, in input order. -/
theorem goIns_filter (key : α → Int) (p : Int) (l : List α) :
    (goIns (keyLt key) l).filter (fun z => decide (key z = p)) =
      l.filter (fun z => decide (key z = p)) := by
  unfold goIns
  simpa using foldl_bubbleRev_filter key p l []

theorem insertionSortRange_full (lt : α → α → Bool) (l : List α) :
    insertionSortRange lt l 0 l.length = goIns lt l := by
  unfold insertionSortRange
  simp

/-- On slices of at most `maxInsertion = 12` elements, `sort.Sort` is
exactly the stable insertion sort. -/
theorem sortSortGo_of_short [Inhabited α] (lt : α → α → Bool) (l : List α)
    (h : l.length ≤ 12) : sortSortGo lt l = goIns lt l := by
  unfold sortSortGo
  dsimp only
  by_cases h1 : l.length ≤ 1
  · rw [if_pos h1]
    cases l with
    | nil => rfl
    | cons x xs =>
      cases xs with
      | nil => rfl
      | cons y ys => simp at h1
  · rw [if_neg h1]
    have hf : (l.length + 1) * (l.length + 1) + 64 =
        ((l.length + 1) * (l.length + 1) + 63) + 1 := by omega
    rw [hf, pdqsortFuel]
    rw [if_pos (by omega : l.length - 0 ≤ 12)]
    exact insertionSortRange_full lt l

/-! ## Shutdown hooks (`ShutdownHook` struct and `ExecuteShutdownHooks`,
`server.go:542-607`)

A hook's callback `Hook func(context.Context) error` is external code;
it is modelled by its two observables: the error it returns (`retErr`)
and the status its per-hook context (`hookCtx`, derived at
`server.go:559` with the hook's timeout) reports at the moment the
callback returns (`ctxAtReturn`).  The `select` at `server.go:566-584`
is a non-blocking poll of that context: when `hookCtx.Done()` is ready
the `Done` branch runs (recording "hook X timed out" only when
`hookCtx.Err()` is `DeadlineExceeded`, discarding the callback's own
result; a merely-cancelled context records nothing), otherwise the
`default` branch records the callback's error if non-nil.

Each hook goroutine appends its recorded error to `hookErrs` under a
mutex, so the real append order is the goroutines' completion order; the
model lists the recorded errors in launch order.  No claim below depends
on the order inside the joined error.

The wait at `server.go:588-598` races `wg.Wait()` against the overall
context: `allHooksFinishInTime` states that the wait group finished
before the overall context fired; when it did not, `ErrShutdownTimeout`
is returned immediately, independent of any per-hook errors. -/

/-- The status a Go context reports at a given instant (its `Err()`
value). -/
inductive CtxStatus where
  | active
  | doneDeadline
  | doneCanceled
deriving DecidableEq, Repr, Inhabited

/-- Model of `ShutdownHook` (`ShutdownHook` struct in the `server`
package): name, priority, timeout, and the observable behaviour of the
callback. -/
structure ShutdownHookM where
  Name : String
  Priority : Int
  Timeout : Int
  retErr : Option Err
  ctxAtReturn : CtxStatus
deriving Inhabited

/-- The comparison `ShutdownHooks.Less(i, j)` is `h[i].Priority < h[j].Priority`. -/
def hookLt : ShutdownHookM → ShutdownHookM → Bool :=
  keyLt (fun h => h.Priority)

/-- The call `sort.Sort(s.shutdownHooks)` (`server.go:549`). -/
def sortHooks (hooks : List ShutdownHookM) : List ShutdownHookM :=
  sortSortGo hookLt hooks

/-- What one hook goroutine records after its callback returns
(`server.go:565-584`): deadline-expired context ⇒ the timeout failure
naming the hook (callback result discarded); cancelled context ⇒
nothing; active context ⇒ the callback's error, if any. -/
def recordedError (h : ShutdownHookM) : Option Err :=
  match h.ctxAtReturn with
  | .doneDeadline => some (.mk ("hook " ++ h.Name ++ " timed out"))
  | .doneCanceled => none
  | .active => h.retErr

/-- The recorded per-hook errors of a run, in launch order. -/
def hookErrsOf (hooks : List ShutdownHookM) : List Err :=
  (sortHooks hooks).filterMap recordedError

/-- Model of `ExecuteShutdownHooks` (`server.go:542-607`): empty hook list returns
nil immediately; otherwise the hooks are sorted and launched in slice
order (first component) and the result (second component) is
`ErrShutdownTimeout` when the overall context fires before all hook
goroutines finish, else the join of the recorded per-hook errors. -/
def executeShutdownHooksFull (hooks : List ShutdownHookM)
    (allHooksFinishInTime : Bool) : List ShutdownHookM × Option Err :=
  if hooks.isEmpty then ([], none)
  else
    (sortHooks hooks,
      if allHooksFinishInTime then joinGo (hookErrsOf hooks)
      else some Err.shutdownTimeout)

/-- The result of `ExecuteShutdownHooks`. -/
def executeShutdownHooksM (hooks : List ShutdownHookM)
    (allHooksFinishInTime : Bool) : Option Err :=
  (executeShutdownHooksFull hooks allHooksFinishInTime).2

/-- The launch order of the hook goroutines (`server.go:555-557`):
the sorted slice, one goroutine per hook, launched in slice order. -/
def hooksLaunchOrder (hooks : List ShutdownHookM) : List ShutdownHookM :=
  (executeShutdownHooksFull hooks true).1

/-- A behaviour-neutral hook used by the C2 counterexample. -/
def c2hook (n : String) (p : Int) : ShutdownHookM :=
  { Name := n, Priority := p, Timeout := 5, retErr := none, ctxAtReturn := .active }

/-- Thirteen hooks, in registration order; `h0` and `h3` share priority
5, `h5` and `h6` share priority 4. -/
def thirteenHooks : List ShutdownHookM :=
  [c2hook "h0" 5, c2hook "h1" 1, c2hook "h2" 2, c2hook "h3" 5, c2hook "h4" 3,
   c2hook "h5" 4, c2hook "h6" 4, c2hook "h7" 0, c2hook "h8" 6, c2hook "h9" 6,
   c2hook "h10" 7, c2hook "h11" 8, c2hook "h12" 9]

/-- C2 counterexample: with 13 registered hooks Go's `sort.Sort` leaves
the insertion-sort regime and is not stable — the launch order puts `h3`
before `h0` and `h6` before `h5` although each pair has equal priority
and `h0` (resp. `h5`) was registered first.  (The launch order is still
ascending by priority.) -/
theorem shutdownHooks_launch_not_stable :
    (hooksLaunchOrder thirteenHooks).map ShutdownHookM.Name =
      ["h7", "h1", "h2", "h4", "h6", "h5", "h3", "h0", "h8", "h9", "h10", "h11", "h12"] ∧
    ((hooksLaunchOrder thirteenHooks).filter
        (fun h => decide (h.Priority = 5))).map ShutdownHookM.Name = ["h3", "h0"] ∧
    (thirteenHooks.filter
        (fun h => decide (h.Priority = 5))).map ShutdownHookM.Name = ["h0", "h3"] := by
  refine ⟨?_, ?_, ?_⟩ <;> rfl

/-- C2 (amended): whenever hooks are executed, every registered hook is
launched exactly once (the launch sequence is a permutation of the
registered hooks); whenever at most 12 hooks are registered the launch
order is moreover ascending by priority and stable with respect to
registration order for equal priorities.  (Beyond 12 hooks Go's
`sort.Sort` is not stable — see the counterexample.) -/
theorem executeShutdownHooks_launch_order (hooks : List ShutdownHookM)
    (hne : hooks ≠ []) :
    hooksLaunchOrder hooks ~ hooks ∧
    (hooks.length ≤ 12 →
      (hooksLaunchOrder hooks).Pairwise (fun u v => u.Priority ≤ v.Priority) ∧
      ∀ p : Int, (hooksLaunchOrder hooks).filter (fun h => decide (h.Priority = p)) =
        hooks.filter (fun h => decide (h.Priority = p))) := by
  have hl : hooksLaunchOrder hooks = sortHooks hooks := by
    unfold hooksLaunchOrder executeShutdownHooksFull
    rw [if_neg (by simpa using hne)]
  constructor
  · rw [hl]
    exact sortSortGo_perm _ hooks
  · intro h12
    have hshort : sortHooks hooks = goIns hookLt hooks :=
      sortSortGo_of_short _ hooks h12
    rw [hl, hshort]
    exact ⟨goIns_sorted (fun h => h.Priority) hooks,
      fun p => goIns_filter (fun h => h.Priority) p hooks⟩

/-- Two hooks registered out of priority order, for the C2 witness. -/
def twoHooks : List ShutdownHookM := [c2hook "late" 2, c2hook "early" 1]

/-- C2 witness: the launch-order theorem applied to two concrete hooks. -/
theorem executeShutdownHooks_launch_order_witness :
    hooksLaunchOrder twoHooks ~ twoHooks ∧
    (hooksLaunchOrder twoHooks).Pairwise (fun u v => u.Priority ≤ v.Priority) ∧
    (hooksLaunchOrder twoHooks).filter (fun h => decide (h.Priority = 1)) =
      twoHooks.filter (fun h => decide (h.Priority = 1)) :=
  ⟨(executeShutdownHooks_launch_order twoHooks (by simp [twoHooks])).1,
    ((executeShutdownHooks_launch_order twoHooks (by simp [twoHooks])).2
      (by simp [twoHooks])).1,
    ((executeShutdownHooks_launch_order twoHooks (by simp [twoHooks])).2
      (by simp [twoHooks])).2 1⟩

/-- A hook whose callback returns an error while its context was
cancelled (not deadline-expired). -/
def canceledHook : ShutdownHookM :=
  { Name := "cleanup", Priority := 1, Timeout := 5,
    retErr := some (.mk "cleanup failed"), ctxAtReturn := .doneCanceled }

/-- C3 counterexample: a hook returns a non-nil error while its per-hook
context is merely cancelled (`hookCtx.Err() = context.Canceled`, not
deadline-expired); `ExecuteShutdownHooks` returns nil — the error is
silently discarded rather than recorded, because the `select` takes the
`Done` branch and its body only records on `DeadlineExceeded`
(`server.go:566-574` falls through without an `else`). -/
theorem hookError_dropped_on_cancel :
    canceledHook.retErr = some (.mk "cleanup failed") ∧
    canceledHook.ctxAtReturn = .doneCanceled ∧
    executeShutdownHooksM [canceledHook] true = none :=
  ⟨rfl, rfl, rfl⟩

/-- C3 (amended): a hook's returned error is recorded and included in
the joined result exactly when the per-hook context is still *active*
when the callback returns; if the context is done — whether cancelled or
deadline-expired — the callback's own error is discarded (cancelled:
nothing is recorded at all). -/
theorem hookError_recorded_iff_ctx_active (hooks : List ShutdownHookM)
    (h : ShutdownHookM) (e : Err) (hmem : h ∈ hooks)
    (hact : h.ctxAtReturn = .active) (herr : h.retErr = some e) :
    recordedError h = some e ∧
    e ∈ hookErrsOf hooks ∧
    executeShutdownHooksM hooks true = some (.joined (hookErrsOf hooks)) ∧
    (∀ h' ∈ hooks, h'.ctxAtReturn = .doneCanceled → recordedError h' = none) := by
  have hrec : recordedError h = some e := by
    unfold recordedError
    rw [hact]
    exact herr
  have hmem' : h ∈ sortHooks hooks := (sortSortGo_perm hookLt hooks).mem_iff.mpr hmem
  have hin : e ∈ hookErrsOf hooks := by
    unfold hookErrsOf
    exact List.mem_filterMap.mpr ⟨h, hmem', hrec⟩
  refine ⟨hrec, hin, ?_, ?_⟩
  · have hne : ¬ hooks.isEmpty := by
      cases hooks with
      | nil => simp at hmem
      | cons a t => simp
    unfold executeShutdownHooksM executeShutdownHooksFull
    rw [if_neg (by simpa using hne)]
    dsimp only
    rw [if_pos rfl]
    unfold joinGo
    rw [if_neg (by
      intro hemp
      rw [List.isEmpty_iff] at hemp
      rw [hemp] at hin
      simp at hin)]
  · intro h' _ hc
    unfold recordedError
    rw [hc]

/-- A hook whose callback fails while its context is still active. -/
def failingHook : ShutdownHookM :=
  { Name := "flush", Priority := 2, Timeout := 5,
    retErr := some (.mk "flush failed"), ctxAtReturn := .active }

/-- C3 witness: the amended theorem applied to a concrete failing hook. -/
theorem hookError_recorded_iff_ctx_active_witness :
    recordedError failingHook = some (.mk "flush failed") ∧
    Err.mk "flush failed" ∈ hookErrsOf [failingHook] ∧
    executeShutdownHooksM [failingHook] true =
      some (.joined (hookErrsOf [failingHook])) :=
  ⟨(hookError_recorded_iff_ctx_active [failingHook] failingHook _
      (by simp) rfl rfl).1,
    (hookError_recorded_iff_ctx_active [failingHook] failingHook _
      (by simp) rfl rfl).2.1,
    (hookError_recorded_iff_ctx_active [failingHook] failingHook _
      (by simp) rfl rfl).2.2.1⟩

/-- C4: a hook whose per-hook context deadline has elapsed by the time
its callback returns (`hookCtx.Err() = context.DeadlineExceeded` at the
non-blocking poll performed immediately after the callback returns) is
recorded as "hook ‹name› timed out"; the callback's own returned result
is discarded — the recorded failure is the same for every possible
callback result, including a hook that kept running past its timeout and
only then returned (successfully or not). -/
theorem hookTimeout_recorded (hooks : List ShutdownHookM) (h : ShutdownHookM)
    (hmem : h ∈ hooks) (hdl : h.ctxAtReturn = .doneDeadline) :
    recordedError h = some (.mk ("hook " ++ h.Name ++ " timed out")) ∧
    (∀ e : Option Err,
      recordedError { h with retErr := e } =
        some (.mk ("hook " ++ h.Name ++ " timed out"))) ∧
    Err.mk ("hook " ++ h.Name ++ " timed out") ∈ hookErrsOf hooks := by
  have hrec : recordedError h = some (.mk ("hook " ++ h.Name ++ " timed out")) := by
    unfold recordedError
    rw [hdl]
  refine ⟨hrec, ?_, ?_⟩
  · intro e
    unfold recordedError
    rw [show ({ h with retErr := e } : ShutdownHookM).ctxAtReturn = .doneDeadline from hdl]
  · have hmem' : h ∈ sortHooks hooks := (sortSortGo_perm hookLt hooks).mem_iff.mpr hmem
    unfold hookErrsOf
    exact List.mem_filterMap.mpr ⟨h, hmem', hrec⟩

/-- A hook that ignores its context, keeps running past its timeout and
then returns nil. -/
def sleepyHook : ShutdownHookM :=
  { Name := "sleepy", Priority := 1, Timeout := 1,
    retErr := none, ctxAtReturn := .doneDeadline }

/-- C4 witness: the timeout-recording theorem applied to a concrete
overrunning hook. -/
theorem hookTimeout_recorded_witness :
    recordedError sleepyHook = some (.mk "hook sleepy timed out") ∧
    Err.mk "hook sleepy timed out" ∈ hookErrsOf [sleepyHook] :=
  ⟨(hookTimeout_recorded [sleepyHook] sleepyHook (by simp) rfl).1,
    (hookTimeout_recorded [sleepyHook] sleepyHook (by simp) rfl).2.2⟩

/-- C5: if the overall context fires before all hook goroutines finish,
`ExecuteShutdownHooks` returns the `ErrShutdownTimeout` sentinel,
independent of (and without including) the per-hook errors — the
equation holds for *every* hook list; if all hook goroutines finish
first, it returns the join of the recorded per-hook errors, which is nil
exactly when that set is empty; an empty hook list returns nil
immediately. -/
theorem executeShutdownHooks_result (hooks : List ShutdownHookM) (fin : Bool) :
    (hooks = [] → executeShutdownHooksM hooks fin = none) ∧
    (hooks ≠ [] → fin = false →
      executeShutdownHooksM hooks fin = some Err.shutdownTimeout) ∧
    (hooks ≠ [] → fin = true →
      executeShutdownHooksM hooks fin = joinGo (hookErrsOf hooks) ∧
      (hookErrsOf hooks = [] → executeShutdownHooksM hooks fin = none)) := by
  refine ⟨?_, ?_, ?_⟩
  · intro he
    subst he
    rfl
  · intro hne hfin
    subst hfin
    unfold executeShutdownHooksM executeShutdownHooksFull
    rw [if_neg (by simpa using hne)]
    rfl
  · intro hne hfin
    subst hfin
    have hres : executeShutdownHooksM hooks true = joinGo (hookErrsOf hooks) := by
      unfold executeShutdownHooksM executeShutdownHooksFull
      rw [if_neg (by simpa using hne)]
      rfl
    refine ⟨hres, ?_⟩
    intro hemp
    rw [hres, hemp]
    rfl

/-- C5 witness: the result characterization at concrete runs — an
overall timeout beats a per-hook outcome; an uneventful run yields nil;
no hooks yields nil. -/
theorem executeShutdownHooks_result_witness :
    executeShutdownHooksM [sleepyHook, c2hook "quick" 2] false =
      some Err.shutdownTimeout ∧
    executeShutdownHooksM [c2hook "quick" 2] true = none ∧
    executeShutdownHooksM [] true = none :=
  ⟨((executeShutdownHooks_result [sleepyHook, c2hook "quick" 2] false).2.1
      (by simp) rfl),
    (((executeShutdownHooks_result [c2hook "quick" 2] true).2.2
      (by simp) rfl).2 (by rfl)),
    ((executeShutdownHooks_result [] true).1 rfl)⟩

/-! ## The shutdown engine (`shutdown`, `server.go:450-539`), `Stop`
(`server.go:431-435`), `GracefulShutdown` (`server.go:438-447`) and the
tail of `Serve` (`server.go:294-321`)

The concrete listener objects are external collaborators; a running
listener is modelled by its name and the observable behaviour of its
stop operations.  The engine drains its buffered error channel `errC`
after the wait/deadline race (`server.go:520-525`); the drained errors
are modelled as the errors of all listener stop operations (the
deterministic case in which every goroutine has sent before the drain —
no claim depends on a partial drain). -/

/-- Observable shutdown behaviour of a running `*http.Server`: the
errors returned by `Shutdown(ctx)` (graceful mode) and `Close()`
(immediate mode). -/
structure HttpListenerB where
  shutdownErr : Option Err
  closeErr : Option Err
deriving Inhabited

/-- Observable shutdown behaviour of a running `*grpc.Server`: whether
its `GracefulStop()` finishes before the engine's context fires
(`server.go:488-498`). -/
structure GrpcListenerB where
  gracefulDoneInTime : Bool
deriving Inhabited

/-- Timing of the two wait/deadline races of a shutdown run: the
listeners' wait-group against the engine context (`server.go:513-518`)
and the hooks' wait-group against the same context
(`server.go:594-598`). -/
structure ShutdownTiming where
  listenersDoneInTime : Bool
  hooksDoneInTime : Bool
deriving Inhabited

/-- The manager state seen by the shutdown path (`Server` struct,
`server.go:174-194`): running-listener tables, registered hooks, the
shared shutdown context's cancel flag and the `sync.Once` flag. -/
structure ServerM where
  httpServers : List (String × HttpListenerB)
  grpcServers : List (String × GrpcListenerB)
  shutdownHooks : List ShutdownHookM
  shutdownCtxCancelled : Bool
  shutdownOnceUsed : Bool
deriving Inhabited

/-- Which stop operation the engine invoked on an HTTP listener. -/
inductive HttpAction where
  | shutdownCall
  | closeCall
deriving DecidableEq, Repr

/-- Which stop operation(s) the engine invoked on a gRPC listener. -/
inductive GrpcAction where
  | gracefulStop
  | gracefulThenForceStop
  | forceStop
deriving DecidableEq, Repr

/-- Everything one run of the internal engine does. -/
structure EngineTrace where
  httpActions : List (String × HttpAction)
  grpcActions : List (String × GrpcAction)
  hooksLaunched : List ShutdownHookM
  result : Option Err

/-- The error one HTTP-listener goroutine pushes on `errC`
(`server.go:466-477`): the stop error, wrapped as
`"HTTP server %s shutdown error: %w"`. -/
def engineHttpErr (isGraceful : Bool) (p : String × HttpListenerB) : Option Err :=
  (if isGraceful then p.2.shutdownErr else p.2.closeErr).map
    (fun e => .wrap ("HTTP server " ++ p.1 ++ " shutdown error") e)

/-- The error one gRPC-listener goroutine pushes on `errC`
(`server.go:485-502`): only the graceful-timeout message; `Stop()`
returns nothing. -/
def engineGrpcErr (isGraceful : Bool) (p : String × GrpcListenerB) : Option Err :=
  if isGraceful ∧ ¬ p.2.gracefulDoneInTime then
    some (.mk ("gRPC server " ++ p.1 ++ " graceful shutdown timed out"))
  else none

/-- The stop operation(s) performed on one gRPC listener
(`server.go:485-502`). -/
def engineGrpcAction (isGraceful : Bool) (p : String × GrpcListenerB) : GrpcAction :=
  if isGraceful then
    if p.2.gracefulDoneInTime then .gracefulStop else .gracefulThenForceStop
  else .forceStop

/-- Model of `errors.Join(a, b)` on two possibly-nil arguments. -/
def joinGoOpt (a b : Option Err) : Option Err :=
  joinGo (a.toList ++ b.toList)

/-- One run of the engine body (`server.go:452-535`): stop every running
HTTP and gRPC listener concurrently (abruptly in immediate mode,
drain-within-deadline in graceful mode), record `ErrShutdownTimeout`
when the listeners' wait-group loses the deadline race, drain `errC`,
join, and — in graceful mode only — execute the shutdown hooks and join
any hook failure into the result. -/
def shutdownEngine (s : ServerM) (isGraceful : Bool) (t : ShutdownTiming) : EngineTrace :=
  let errC := s.httpServers.filterMap (engineHttpErr isGraceful) ++
    s.grpcServers.filterMap (engineGrpcErr isGraceful)
  let errs := (if t.listenersDoneInTime then [] else [Err.shutdownTimeout]) ++ errC
  let listenerResult := joinGo errs
  { httpActions := s.httpServers.map
      (fun p => (p.1, if isGraceful then HttpAction.shutdownCall else HttpAction.closeCall)),
    grpcActions := s.grpcServers.map (fun p => (p.1, engineGrpcAction isGraceful p)),
    hooksLaunched :=
      if isGraceful then (executeShutdownHooksFull s.shutdownHooks t.hooksDoneInTime).1
      else [],
    result :=
      if isGraceful then
        match executeShutdownHooksM s.shutdownHooks t.hooksDoneInTime with
        | none => listenerResult
        | some he => joinGoOpt listenerResult (some he)
      else listenerResult }

/-- Model of `shutdown` (`server.go:450-539`): the engine body runs under
`s.shutdownOnce.Do`, writing the local `shutdownErr`; a call that finds
the `Once` already used returns with `shutdownErr` still at its zero
value, i.e. nil.  Returns (new state, returned error, whether the engine
executed). -/
def shutdownM (s : ServerM) (isGraceful : Bool) (t : ShutdownTiming) :
    ServerM × Option Err × Bool :=
  if s.shutdownOnceUsed then (s, none, false)
  else ({ s with shutdownOnceUsed := true },
    (shutdownEngine s isGraceful t).result, true)

/-- Model of `Stop` (`server.go:431-435`): cancel the shared shutdown context,
then run the engine in immediate mode under a background context. -/
def stopM (s : ServerM) (t : ShutdownTiming) : ServerM × Option Err × Bool :=
  shutdownM { s with shutdownCtxCancelled := true } false t

/-- Model of `GracefulShutdown` (`server.go:438-447`): cancel the shared shutdown
context, derive a context bounded by the configured shutdown timeout,
then run the engine in graceful mode. -/
def gracefulShutdownM (s : ServerM) (t : ShutdownTiming) : ServerM × Option Err × Bool :=
  shutdownM { s with shutdownCtxCancelled := true } true t

/-- One public shutdown invocation with its run's timing. -/
inductive ShutdownCall where
  | stop (t : ShutdownTiming)
  | graceful (t : ShutdownTiming)

/-- Dispatch one call. -/
def runCall (s : ServerM) : ShutdownCall → ServerM × Option Err × Bool
  | .stop t => stopM s t
  | .graceful t => gracefulShutdownM s t

/-- A sequence of `Stop`/`GracefulShutdown` calls: the list of returned
errors and the number of times the engine actually executed. -/
def runCalls (s : ServerM) : List ShutdownCall → List (Option Err) × Nat
  | [] => ([], 0)
  | c :: rest =>
    let r := runCall s c
    let rr := runCalls r.1 rest
    (r.2.1 :: rr.1, (if r.2.2 then 1 else 0) + rr.2)

/-- A fresh manager with no listeners and one failing hook. -/
def c1server : ServerM :=
  { httpServers := [], grpcServers := [], shutdownHooks := [failingHook],
    shutdownCtxCancelled := false, shutdownOnceUsed := false }

/-- The timing in which every wait finishes before its deadline. -/
def tOK : ShutdownTiming := { listenersDoneInTime := true, hooksDoneInTime := true }

/-- C1 counterexample: two sequential `GracefulShutdown` calls on a
manager whose single hook fails.  The engine runs exactly once, but the
second caller observes nil — not the first invocation's combined error —
because `shutdown`'s local `shutdownErr` (`server.go:451`) is only
assigned inside the `Once.Do` closure. -/
theorem shutdown_second_caller_gets_nil :
    (runCalls c1server [.graceful tOK, .graceful tOK]).1 =
      [some (.joined [.joined [.mk "flush failed"]]), none] ∧
    (runCalls c1server [.graceful tOK, .graceful tOK]).2 = 1 ∧
    some (Err.joined [.joined [.mk "flush failed"]]) ≠ (none : Option Err) :=
  ⟨rfl, rfl, by simp⟩

theorem runCalls_of_used (calls : List ShutdownCall) :
    ∀ s : ServerM, s.shutdownOnceUsed = true →
      runCalls s calls = (List.replicate calls.length none, 0) := by
  induction calls with
  | nil => intro s _; rfl
  | cons c rest ih =>
    intro s hused
    have hcall : runCall s c = ({ s with shutdownCtxCancelled := true }, none, false) := by
      cases c with
      | stop t => simp [runCall, stopM, shutdownM, hused]
      | graceful t => simp [runCall, gracefulShutdownM, shutdownM, hused]
    unfold runCalls
    rw [hcall]
    dsimp only
    rw [ih { s with shutdownCtxCancelled := true } (by simpa using hused)]
    simp [List.replicate]

/-- C1 (amended): any sequence of `Stop`/`GracefulShutdown` calls on a
fresh manager executes the engine exactly once; the first caller runs it
and observes its combined error; every later caller re-runs no cleanup
and observes nil — not the first invocation's result. -/
theorem shutdownOnce_engine_exactly_once (s : ServerM)
    (hfresh : s.shutdownOnceUsed = false) (c : ShutdownCall)
    (rest : List ShutdownCall) :
    (runCall s c).2.2 = true ∧
    (runCalls s (c :: rest)).2 = 1 ∧
    (runCalls s (c :: rest)).1.head? = some (runCall s c).2.1 ∧
    ∀ e ∈ (runCalls s (c :: rest)).1.tail, e = none := by
  have hexec : (runCall s c).2.2 = true ∧ (runCall s c).1.shutdownOnceUsed = true := by
    cases c with
    | stop t => simp [runCall, stopM, shutdownM, hfresh]
    | graceful t => simp [runCall, gracefulShutdownM, shutdownM, hfresh]
  have hrest := runCalls_of_used rest (runCall s c).1 hexec.2
  have hrun : runCalls s (c :: rest) =
      ((runCall s c).2.1 :: (runCalls (runCall s c).1 rest).1,
        (if (runCall s c).2.2 then 1 else 0) + (runCalls (runCall s c).1 rest).2) := rfl
  refine ⟨hexec.1, ?_, ?_, ?_⟩
  · rw [hrun, hrest, hexec.1]
    simp
  · rw [hrun]
    rfl
  · intro e he
    rw [hrun] at he
    simp only [List.tail_cons, hrest] at he
    exact List.eq_of_mem_replicate he

/-- C1 witness: the once-semantics theorem applied to a concrete fresh
manager and a concrete graceful-then-stop call sequence. -/
theorem shutdownOnce_engine_exactly_once_witness :
    (runCall c1server (.graceful tOK)).2.2 = true ∧
    (runCalls c1server [.graceful tOK, .stop tOK]).2 = 1 ∧
    (runCalls c1server [.graceful tOK, .stop tOK]).1.head? =
      some (runCall c1server (.graceful tOK)).2.1 ∧
    ∀ e ∈ (runCalls c1server [.graceful tOK, .stop tOK]).1.tail, e = none :=
  shutdownOnce_engine_exactly_once c1server rfl (.graceful tOK) [.stop tOK]

/-- C8: `Stop()` cancels the shared shutdown context and runs the engine
in immediate mode: every running HTTP listener is closed abruptly
(`Close`, not `Shutdown`), every running RPC listener is force-stopped
(`Stop`, no drain), and no shutdown hook is launched. -/
theorem stop_immediate_no_hooks (s : ServerM) (t : ShutdownTiming)
    (hfresh : s.shutdownOnceUsed = false) :
    (stopM s t).1.shutdownCtxCancelled = true ∧
    (stopM s t).2.1 =
      (shutdownEngine { s with shutdownCtxCancelled := true } false t).result ∧
    (shutdownEngine { s with shutdownCtxCancelled := true } false t).httpActions =
      s.httpServers.map (fun p => (p.1, HttpAction.closeCall)) ∧
    (shutdownEngine { s with shutdownCtxCancelled := true } false t).grpcActions =
      s.grpcServers.map (fun p => (p.1, GrpcAction.forceStop)) ∧
    (shutdownEngine { s with shutdownCtxCancelled := true } false t).hooksLaunched = [] := by
  have hstop : stopM s t =
      ({ s with shutdownCtxCancelled := true, shutdownOnceUsed := true },
        (shutdownEngine { s with shutdownCtxCancelled := true } false t).result, true) := by
    unfold stopM shutdownM
    rw [if_neg (by simpa using hfresh)]
  refine ⟨by rw [hstop], by rw [hstop], ?_, ?_, ?_⟩
  · unfold shutdownEngine
    simp
  · unfold shutdownEngine engineGrpcAction
    simp
  · unfold shutdownEngine
    simp

/-- A manager with one running HTTP listener, one running gRPC listener
and one registered hook. -/
def exRunningServer : ServerM :=
  { httpServers := [("web", { shutdownErr := none, closeErr := none })],
    grpcServers := [("api", { gracefulDoneInTime := true })],
    shutdownHooks := [failingHook],
    shutdownCtxCancelled := false, shutdownOnceUsed := false }

/-- C8 witness: `Stop` on a concrete running manager. -/
theorem stop_immediate_no_hooks_witness :
    (stopM exRunningServer tOK).1.shutdownCtxCancelled = true ∧
    (shutdownEngine { exRunningServer with shutdownCtxCancelled := true }
        false tOK).httpActions = [("web", HttpAction.closeCall)] ∧
    (shutdownEngine { exRunningServer with shutdownCtxCancelled := true }
        false tOK).grpcActions = [("api", GrpcAction.forceStop)] ∧
    (shutdownEngine { exRunningServer with shutdownCtxCancelled := true }
        false tOK).hooksLaunched = [] :=
  ⟨(stop_immediate_no_hooks exRunningServer tOK rfl).1,
    (stop_immediate_no_hooks exRunningServer tOK rfl).2.2.1,
    (stop_immediate_no_hooks exRunningServer tOK rfl).2.2.2.1,
    (stop_immediate_no_hooks exRunningServer tOK rfl).2.2.2.2⟩

/-! ### The tail of `Serve` (`server.go:294-321`) -/

/-- Which arm of `Serve`'s three-way `select` (`server.go:295-306`)
fired: an OS signal, a fatal listener error (together with the errors
already queued on the buffered channel, which are drained), or the
shared shutdown context. -/
inductive ServeTrigger where
  | signal (name : String)
  | fatalErr (e : Err) (queued : List Err)
  | ctxDone

/-- What `Serve` does after its select is released. -/
structure ServeOutcome where
  collected : List Err
  result : Option Err
  wgWaited : Bool
  errChanClosed : Bool
  signalChanClosed : Bool

/-- The tail of `Serve` (`server.go:294-321`): collect the triggering
error and the drained queue (error arm only), run `GracefulShutdown`
when automatic stop is enabled and append its error if non-nil, wait for
all listener goroutines, close the error and signal channels, and
return the join of all collected errors. -/
def serveTail (s : ServerM) (trig : ServeTrigger) (isAutomaticStop : Bool)
    (t : ShutdownTiming) : ServeOutcome :=
  let errs : List Err :=
    match trig with
    | .fatalErr e queued => e :: queued
    | _ => []
  let errs :=
    if isAutomaticStop then
      match (gracefulShutdownM s t).2.1 with
      | some se => errs ++ [se]
      | none => errs
    else errs
  { collected := errs, result := joinGo errs,
    wgWaited := true, errChanClosed := true, signalChanClosed := true }

/-- C9: when the three-way wait is released by a fatal listener error,
`Serve` drains every error already queued and reports them all together
(the trigger error first, then the queued errors in order, then the
automatic shutdown's error if any); in every case `Serve` waits for all
listener goroutines, closes the error and signal channels, and returns
the join of all collected errors — nil exactly when nothing was
collected. -/
theorem serve_tail_spec (s : ServerM) (trig : ServeTrigger)
    (isAutomaticStop : Bool) (t : ShutdownTiming) :
    (serveTail s trig isAutomaticStop t).wgWaited = true ∧
    (serveTail s trig isAutomaticStop t).errChanClosed = true ∧
    (serveTail s trig isAutomaticStop t).signalChanClosed = true ∧
    (serveTail s trig isAutomaticStop t).result =
      joinGo (serveTail s trig isAutomaticStop t).collected ∧
    ((serveTail s trig isAutomaticStop t).result = none ↔
      (serveTail s trig isAutomaticStop t).collected = []) ∧
    (∀ e queued, trig = .fatalErr e queued →
      (serveTail s trig isAutomaticStop t).collected =
        (e :: queued) ++
          (if isAutomaticStop then (gracefulShutdownM s t).2.1.toList else [])) := by
  refine ⟨rfl, rfl, rfl, rfl, joinGo_eq_none_iff _, ?_⟩
  intro e queued htrig
  subst htrig
  unfold serveTail
  dsimp only
  by_cases hauto : isAutomaticStop
  · rw [if_pos hauto, if_pos hauto]
    cases (gracefulShutdownM s t).2.1 with
    | none => simp
    | some se => simp
  · rw [if_neg hauto, if_neg hauto]
    simp

/-- C9 witness: the `Serve`-tail specification at a concrete fatal-error
trigger with one queued error and automatic stop enabled. -/
theorem serve_tail_spec_witness :
    (serveTail c1server (.fatalErr (.mk "bind failed") [.mk "tls failed"])
        true tOK).collected =
      (Err.mk "bind failed" :: [Err.mk "tls failed"]) ++
        (if true then (gracefulShutdownM c1server tOK).2.1.toList else []) ∧
    (serveTail c1server (.fatalErr (.mk "bind failed") [.mk "tls failed"])
        true tOK).wgWaited = true :=
  ⟨((serve_tail_spec c1server (.fatalErr (.mk "bind failed") [.mk "tls failed"])
      true tOK).2.2.2.2.2 (.mk "bind failed") [.mk "tls failed"] rfl),
    (serve_tail_spec c1server (.fatalErr (.mk "bind failed") [.mk "tls failed"])
      true tOK).1⟩

end GoServer
